import Mathlib

/-!
Verification development for the buildwithclaude marketplace web application.

This file gives a shallow embedding, in Lean 4, of the server-side data-access
core of the repository:

- the resilient query wrapper with its 30-second circuit breaker
  (src/unnamed/part_002, safeDbQuery);
- the paginated listing services for marketplaces
  (src/web-ui/lib/marketplace-server.ts), MCP servers
  (src/unnamed/part_002) and unified plugins (src/unnamed/part_003);
- the local/remote plugin merger and its in-memory sort
  (src/unnamed/part_003, filterLocalPlugins / sortPlugins / getPluginsPaginated);
- the registry indexer's page-fetch loops, slug generation and upsert
  (src/unnamed/part_003, fetchOfficialMCPServers / fetchDockerMCPServers /
  generateSlug / upsertMCPServer);
- the stats syncer's per-record update/snapshot logic
  (src/unnamed/part_003, syncMCPServerStats).

Modelling conventions:

- The external Postgres database is modelled as an in-memory table
  (a Lean list of rows); a drizzle select with a where clause, an order-by
  and limit/offset is modelled as filter, a stable sort by the same
  keys, and drop/take.  Both queries of one listing call see the same table
  snapshot.  SQL ties (rows equal under the order-by keys) are returned in
  table order, one of the orders Postgres may produce.
- Query failure is a Boolean parameter of each model function (true means
  the database operation resolves, false means it rejects); the wall clock
  is an explicit Nat parameter (milliseconds).
- JavaScript async/await control flow is sequentialized; each await point
  happens in program order, which matches the single-threaded runtime.
- Strings are handled at the character-list level so every definition
  evaluates inside the kernel.  SQL ILIKE with a %pattern% built from a
  search term is modelled as case-insensitive containment (terms without
  wildcard characters), localeCompare and SQL text collation are modelled
  as lexicographic order on character codes, and ASCII case folding models
  toLowerCase / ILIKE case-insensitivity.
- JSON-serialized payload columns (packages, remotes, environment
  variables, installation methods) are carried as opaque optional strings;
  the parse step of transformToMCPServerWithParsedJSON does not affect any
  claim and is the identity on this representation.
-/

/-! ## Character and string helpers -/

/-- ASCII lower-casing of one character, the effect of toLowerCase and of
ILIKE case-insensitivity on the ASCII names stored by this application. -/
def lowChar (c : Char) : Char :=
  if 'A' ≤ c ∧ c ≤ 'Z' then Char.ofNat (c.toNat + 32) else c

/-- ASCII lower-casing of a string. -/
def lowStr (s : String) : String :=
  ⟨s.data.map lowChar⟩

/-- Does the first list occur at the head of the second list? -/
def charsLeadEq : List Char → List Char → Bool
  | [], _ => true
  | _ :: _, [] => false
  | p :: ps, h :: hs => p = h && charsLeadEq ps hs

/-- Does the first list occur contiguously anywhere in the second list? -/
def charsHas (pat : List Char) : List Char → Bool
  | [] => pat.isEmpty
  | h :: hs => charsLeadEq pat (h :: hs) || charsHas pat hs

/-- Case-insensitive equality of strings: name ILIKE search with a
wildcard-free search term, and name.toLowerCase() === searchLower. -/
def ciEq (a b : String) : Bool :=
  lowStr a = lowStr b

/-- Case-insensitive "hay starts with pat": name ILIKE search% . -/
def ciStarts (hay pat : String) : Bool :=
  charsLeadEq (lowStr pat).data (lowStr hay).data

/-- Case-insensitive "hay contains pat": col ILIKE %search%, and
hay.toLowerCase().includes(pat.toLowerCase()). -/
def ciContains (hay pat : String) : Bool :=
  charsHas (lowStr pat).data (lowStr hay).data

/-- Lexicographic order on character lists; models localeCompare(a,b) <= 0 on
the ASCII names of this catalog and SQL text collation for ORDER BY. -/
def charListLe : List Char → List Char → Bool
  | [], _ => true
  | _ :: _, [] => false
  | a :: as, b :: bs =>
    if a.toNat < b.toNat then true
    else if b.toNat < a.toNat then false
    else charListLe as bs

/-- Insert an element into a list immediately before the first element it
may precede; the insertion step of the stable sort. -/
def sortInsert {α : Type} (le : α → α → Bool) (x : α) : List α → List α
  | [] => [x]
  | y :: ys => if le x y then x :: y :: ys else y :: sortInsert le x ys

/-- A stable sort by a may-precede relation.  Array.prototype.sort and SQL
ORDER BY are modelled with it: for the consistent (transitive and total)
comparators of this application a stable sort result is unique, so the
algorithm choice does not matter, and ties keep list order. -/
def stableSort {α : Type} (le : α → α → Bool) : List α → List α
  | [] => []
  | x :: xs => sortInsert le x (stableSort le xs)

/-- Split a character list at a separator character. -/
def splitSepAux (sep : Char) : List Char → List Char → List (List Char)
  | [], acc => [acc.reverse]
  | c :: rest, acc =>
    if c = sep then acc.reverse :: splitSepAux sep rest []
    else splitSepAux sep rest (c :: acc)

/-- Split a string at a separator character, as String.prototype.split. -/
def splitSep (sep : Char) (s : String) : List String :=
  (splitSepAux sep s.data []).map (fun l => ⟨l⟩)

/-- String.prototype.trim restricted to the space character (the only
whitespace appearing in this catalog's category strings). -/
def trimStr (s : String) : String :=
  ⟨((s.data.dropWhile (fun c => c = ' ')).reverse.dropWhile (fun c => c = ' ')).reverse⟩

/-- Is the character an ASCII hexadecimal digit? -/
def isHexDigit (c : Char) : Bool :=
  ('0' ≤ c ∧ c ≤ '9') ∨ ('a' ≤ c ∧ c ≤ 'f') ∨ ('A' ≤ c ∧ c ≤ 'F')

/-- The UUID shape test of getPluginsPaginated: five dash-separated groups of
8, 4, 4, 4 and 12 hexadecimal digits, case-insensitive and anchored, exactly
the regex used before comparing against the marketplace_id UUID column. -/
def isUUID (s : String) : Bool :=
  let parts := splitSepAux '-' s.data []
  parts.map List.length = [8, 4, 4, 4, 12] && parts.all (fun p => p.all isHexDigit)

/-! ## Resilient query wrapper (src/unnamed/part_002, safeDbQuery)

The process-wide mutable breaker state is passed explicitly; Date.now() is the
explicit now parameter.  The wrapped async operation is an Option value: some
r means queryFn resolves with r, none means it rejects.  The invoked flag
records whether the model reached the try block, i.e. whether the underlying
operation was invoked at all. -/

/-- The fixed cool-down window CIRCUIT_TTL_MS = 30_000 ms. -/
def CIRCUIT_TTL_MS : Nat := 30000

/-- The module-level breaker state: circuitOpen and circuitOpenedAt. -/
structure Breaker where
  circuitOpen : Bool
  circuitOpenedAt : Nat
  deriving DecidableEq

/-- Result of one safeDbQuery call: the new breaker state, the returned data,
the fromDb provenance flag, and whether the operation was invoked. -/
structure SafeOutcome (T : Type) where
  state : Breaker
  data : T
  fromDb : Bool
  invoked : Bool
  deriving DecidableEq

/-- The try block of safeDbQuery, entered with the breaker closed: on success
return (data, fromDb = true); on rejection set circuitOpen and record
circuitOpenedAt = now, returning the fallback with fromDb = false. -/
def attemptQuery {T : Type} (openedAt now : Nat) (op : Option T) (fallback : T) :
    SafeOutcome T :=
  match op with
  | some r => ⟨⟨false, openedAt⟩, r, true, true⟩
  | none => ⟨⟨true, now⟩, fallback, false, true⟩

/-- safeDbQuery: if the circuit is open and the TTL has not expired, return
the fallback without invoking the operation; if the TTL expired, close the
circuit and try again; otherwise run the operation through the try block. -/
def safeDbQuery {T : Type} (st : Breaker) (now : Nat) (op : Option T) (fallback : T) :
    SafeOutcome T :=
  if st.circuitOpen then
    if now - st.circuitOpenedAt > CIRCUIT_TTL_MS then
      attemptQuery st.circuitOpenedAt now op fallback
    else ⟨st, fallback, false, false⟩
  else attemptQuery st.circuitOpenedAt now op fallback

/-! ## Marketplace listing service (src/web-ui/lib/marketplace-server.ts) -/

/-- A row of the marketplaces table (the columns read by this module).  The
namespace column is called nameSpace because namespace is a Lean keyword. -/
structure MarketplaceRow where
  id : String := ""
  name : String
  displayName : String
  description : Option String := none
  url : Option String := none
  repository : String := ""
  installCommand : Option String := none
  nameSpace : String := ""
  pluginCount : Nat := 0
  skillCount : Nat := 0
  categories : Option (List String) := none
  badges : Option (List String) := none
  maintainerName : Option String := none
  maintainerGithub : Option String := none
  stars : Nat := 0
  installs : Nat := 0
  verified : Bool := false
  lastIndexedAt : Option Nat := none
  updatedAt : Nat := 0
  active : Bool := true
  deriving DecidableEq

/-- The MarketplaceRegistry shape produced by transformRow. -/
structure MarketplaceRegistry where
  id : String
  name : String
  displayName : String
  description : String
  url : String
  repository : String
  installCommand : String
  pluginCount : Nat
  skillCount : Nat
  categories : List String
  badges : List String
  maintainerName : String
  maintainerGithub : String
  stars : Nat
  installs : Nat
  verified : Bool
  lastIndexedAt : Option Nat
  updatedAt : Nat
  deriving DecidableEq

/-- transformRow: database row to MarketplaceRegistry, with the fallback
defaults of the source (empty strings, url falling back to repository, a
generated install command). -/
def transformRow (row : MarketplaceRow) : MarketplaceRegistry where
  id := row.id
  name := row.name
  displayName := row.displayName
  description := row.description.getD ""
  url := row.url.getD row.repository
  repository := row.repository
  installCommand := row.installCommand.getD ("/plugin marketplace add " ++ row.nameSpace)
  pluginCount := row.pluginCount
  skillCount := row.skillCount
  categories := row.categories.getD []
  badges := row.badges.getD []
  maintainerName := row.maintainerName.getD ""
  maintainerGithub := row.maintainerGithub.getD ""
  stars := row.stars
  installs := row.installs
  verified := row.verified
  lastIndexedAt := row.lastIndexedAt
  updatedAt := row.updatedAt

/-- The where clause of getMarketplacesPaginated: active = true, and when a
search term with non-blank trim is given, an OR of four ILIKE matches
(NULL columns never match, as in SQL). -/
def marketplaceWhere (search : Option String) (row : MarketplaceRow) : Bool :=
  row.active &&
    match search with
    | none => true
    | some s =>
      if trimStr s = "" then true
      else
        let t := trimStr s
        ciContains row.name t || ciContains row.displayName t ||
          (match row.description with
           | some d => ciContains d t
           | none => false) ||
          (match row.maintainerName with
           | some m => ciContains m t
           | none => false)

/-- getOrderBy of marketplace-server.ts as a may-precede relation: relevance
is installs descending then stars descending; stars, newest, oldest, name and
name-desc as in the source; any other value falls back to stars descending. -/
def marketplaceOrderLe (sort : String) (a b : MarketplaceRow) : Bool :=
  match sort with
  | "relevance" =>
    decide (b.installs < a.installs) ||
      (decide (a.installs = b.installs) && decide (b.stars ≤ a.stars))
  | "stars" => decide (b.stars ≤ a.stars)
  | "newest" => decide (b.updatedAt ≤ a.updatedAt)
  | "oldest" => decide (a.updatedAt ≤ b.updatedAt)
  | "name" => charListLe a.displayName.data b.displayName.data
  | "name-desc" => charListLe b.displayName.data a.displayName.data
  | _ => decide (b.stars ≤ a.stars)

/-- The count query of getMarketplacesPaginated under the shared where
clause. -/
def marketplaceCountQuery (table : List MarketplaceRow) (search : Option String) : Nat :=
  (table.filter (marketplaceWhere search)).length

/-- The page query of getMarketplacesPaginated: where, order-by, offset and
limit. -/
def marketplaceRowsQuery (table : List MarketplaceRow) (search : Option String)
    (sort : String) (limit offset : Nat) : List MarketplaceRow :=
  (((stableSort (marketplaceOrderLe sort)
    (table.filter (marketplaceWhere search))).drop offset).take limit)

/-- The PaginatedMarketplaces response shape. -/
structure PaginatedMarketplaces where
  marketplaces : List MarketplaceRegistry
  total : Nat
  hasMore : Bool
  deriving DecidableEq

/-- getMarketplacesPaginated: a count query followed by a page query, each
through its own safeDbQuery call (countOk and resultsOk say whether each
database operation would resolve; now1 and now2 are the clock at the two
calls).  total comes from the count row, hasMore from offset plus the number
of returned rows against total. -/
def getMarketplacesPaginated (table : List MarketplaceRow) (brk : Breaker)
    (countOk resultsOk : Bool) (now1 now2 : Nat) (limit offset : Nat)
    (search : Option String) (sort : String) :
    Breaker × PaginatedMarketplaces :=
  let countOut := safeDbQuery brk now1
    (if countOk then some [marketplaceCountQuery table search] else none) [0]
  let total := countOut.data.head?.getD 0
  let resultsOut := safeDbQuery countOut.state now2
    (if resultsOk then some (marketplaceRowsQuery table search sort limit offset) else none) []
  (resultsOut.state,
    ⟨resultsOut.data.map transformRow, total,
      decide (offset + resultsOut.data.length < total)⟩)

/-- getMarketplaceById: select by id, name or namespace with limit 1 and no
active filter, returning the transformed first row if any. -/
def getMarketplaceById (table : List MarketplaceRow) (brk : Breaker)
    (dbOk : Bool) (now : Nat) (id : String) :
    Breaker × Option MarketplaceRegistry :=
  let out := safeDbQuery brk now
    (if dbOk then
       some ((table.filter
         (fun m => m.id = id || m.name = id || m.nameSpace = id)).take 1)
     else none) []
  (out.state, out.data.head?.map transformRow)

/-! ## MCP server listing service (src/unnamed/part_002) -/

/-- A row of the mcpServers table (the columns this core reads and writes).
The four JSON-serialized payload columns are carried as opaque optional
strings.  Timestamps are Nat milliseconds. -/
structure MCPRow where
  id : String := ""
  name : String
  displayName : String := ""
  slug : String
  description : Option String := none
  version : Option String := none
  category : String := "utilities"
  tags : List String := []
  serverType : String := "stdio"
  vendor : Option String := none
  logoUrl : Option String := none
  sourceRegistry : String := ""
  sourceUrl : Option String := none
  githubUrl : Option String := none
  dockerUrl : Option String := none
  npmUrl : Option String := none
  documentationUrl : Option String := none
  githubStars : Option Nat := none
  dockerPulls : Option Nat := none
  npmDownloads : Option Nat := none
  packages : Option String := none
  remotes : Option String := none
  environmentVariables : Option String := none
  installationMethods : Option String := none
  verificationStatus : Option String := none
  active : Bool := true
  lastIndexedAt : Nat := 0
  updatedAt : Nat := 0
  createdAt : Nat := 0
  lastStatsSync : Option Nat := none
  deriving DecidableEq

/-- transformToMCPServerWithParsedJSON: on this representation the four
payload columns stay opaque strings, so the transform is the identity on the
row; it preserves the count and order of the page. -/
def transformToMCPServerWithParsedJSON (r : MCPRow) : MCPRow := r

/-- The where clause of getMCPServersPaginated: active first, then the
optional category, source-registry (with the all sentinel), verification
(with the all sentinel) and search conditions; search is an OR of three
ILIKE matches and a literal tag membership. -/
def mcpWhere (category sourceRegistry verification search : Option String)
    (row : MCPRow) : Bool :=
  row.active &&
    (match category with
     | some c => row.category = c
     | none => true) &&
    (match sourceRegistry with
     | some s => if s = "all" then true else row.sourceRegistry = s
     | none => true) &&
    (match verification with
     | some v => if v = "all" then true else row.verificationStatus = some v
     | none => true) &&
    (match search with
     | some s =>
       ciContains row.name s || ciContains row.displayName s ||
         (match row.description with
          | some d => ciContains d s
          | none => false) ||
         row.tags.contains s
     | none => true)

/-- The CASE expression of the relevance order of getMCPServersPaginated:
0 exact case-insensitive name match, 1 name starts with the search term,
2 display name contains it, 3 description contains it, 4 otherwise. -/
def mcpTier (s : String) (r : MCPRow) : Nat :=
  if ciEq r.name s then 0
  else if ciStarts r.name s then 1
  else if ciContains r.displayName s then 2
  else if (match r.description with
           | some d => ciContains d s
           | none => false) then 3
  else 4

/-- The relevance order of getMCPServersPaginated with a search term: the
CASE tier ascending, then COALESCE(dockerPulls, 0) descending. -/
def mcpRelLe (s : String) (a b : MCPRow) : Bool :=
  decide (mcpTier s a < mcpTier s b) ||
    (decide (mcpTier s a = mcpTier s b) &&
      decide (b.dockerPulls.getD 0 ≤ a.dockerPulls.getD 0))

/-- The order-by of getMCPServersPaginated as a may-precede relation, by
sort option: name ascending by display name, updated descending, stars
descending on COALESCE(githubStars, 0), relevance with a search term the
tiered order, and downloads descending on COALESCE(dockerPulls, 0) for
relevance without a search term, for downloads and for any other value. -/
def mcpOrderLe (sort : String) (search : Option String) (a b : MCPRow) : Bool :=
  match sort with
  | "name" => charListLe a.displayName.data b.displayName.data
  | "updated" => decide (b.updatedAt ≤ a.updatedAt)
  | "stars" => decide (b.githubStars.getD 0 ≤ a.githubStars.getD 0)
  | "relevance" =>
    match search with
    | some s => mcpRelLe s a b
    | none => decide (b.dockerPulls.getD 0 ≤ a.dockerPulls.getD 0)
  | _ => decide (b.dockerPulls.getD 0 ≤ a.dockerPulls.getD 0)

/-- The page query of getMCPServersPaginated: where, order-by, limit and
offset. -/
def mcpQueryRows (table : List MCPRow) (category sourceRegistry verification search : Option String)
    (sort : String) (limit offset : Nat) : List MCPRow :=
  (((stableSort (mcpOrderLe sort search)
    (table.filter (mcpWhere category sourceRegistry verification search))).drop offset).take limit)

/-- The count query of getMCPServersPaginated under the same where clause. -/
def mcpQueryCount (table : List MCPRow)
    (category sourceRegistry verification search : Option String) : Nat :=
  (table.filter (mcpWhere category sourceRegistry verification search)).length

/-- The PaginatedMCPServers response shape. -/
structure PaginatedMCPServers where
  servers : List MCPRow
  total : Nat
  limit : Nat
  offset : Nat
  hasMore : Bool
  deriving DecidableEq

/-- getMCPServersPaginated: one safeDbQuery wrapping the Promise.all of the
page query and the count query, with fallback ([], a zero count row); total
is read from the first count row, hasMore compares offset plus the returned
row count against total. -/
def getMCPServersPaginated (table : List MCPRow) (brk : Breaker) (dbOk : Bool)
    (now : Nat) (limit offset : Nat) (search : Option String) (sort : String)
    (category sourceRegistry verification : Option String) :
    Breaker × PaginatedMCPServers :=
  let out := safeDbQuery brk now
    (if dbOk then
       some (mcpQueryRows table category sourceRegistry verification search sort limit offset,
             [mcpQueryCount table category sourceRegistry verification search])
     else none)
    ([], [0])
  let results := out.data.1
  let total := out.data.2.head?.getD 0
  (out.state,
    ⟨results.map transformToMCPServerWithParsedJSON, total, limit, offset,
      decide (offset + results.length < total)⟩)

/-- getMCPServerBySlug: select by slug with limit 1, no active filter,
through safeDbQuery with fallback []; null when no row matched. -/
def getMCPServerBySlug (table : List MCPRow) (brk : Breaker) (dbOk : Bool)
    (now : Nat) (slug : String) : Breaker × Option MCPRow :=
  let out := safeDbQuery brk now
    (if dbOk then some ((table.filter (fun r => r.slug = slug)).take 1) else none) []
  (out.state, out.data.head?.map transformToMCPServerWithParsedJSON)

/-! ## Unified plugin listing (src/unnamed/part_003) -/

/-- The Build with Claude marketplace constants. -/
def BUILD_WITH_CLAUDE_MARKETPLACE : String := "Build with Claude"

/-- The local marketplace identifier constant. -/
def BUILD_WITH_CLAUDE_ID : String := "build-with-claude"

/-- The UnifiedPlugin display shape.  The type field holds one of the
stringly-typed plugin kinds (subagent, command, hook, skill, plugin);
nameSpace stands for the namespace field (a Lean keyword). -/
structure UnifiedPlugin where
  type : String
  name : String
  description : String
  category : String
  tags : List String := []
  marketplaceId : Option String := none
  marketplaceName : Option String := none
  repository : Option String := none
  author : Option String := none
  version : Option String := none
  stars : Option Nat := none
  installCommand : Option String := none
  nameSpace : Option String := none
  deriving DecidableEq

/-- filterLocalPlugins: type filter, marketplace filter (a non-local,
non-all marketplace empties the list), comma-separated category filter with
OR logic, then the case-insensitive search filter over name, description and
tags. -/
def filterLocalPlugins (plugins : List UnifiedPlugin) (search : Option String)
    (type : String) (marketplaceId : Option String) (category : Option String) :
    List UnifiedPlugin :=
  let f1 := if type ≠ "" ∧ type ≠ "all"
    then plugins.filter (fun p => p.type = type) else plugins
  let pass2 := match marketplaceId with
    | some m =>
      if m ≠ "all" then
        decide (m = BUILD_WITH_CLAUDE_ID) || decide (m = BUILD_WITH_CLAUDE_MARKETPLACE)
      else true
    | none => true
  if !pass2 then []
  else
    let f3 := match category with
      | some c =>
        let cats := ((splitSep ',' c).map trimStr).filter (fun x => x ≠ "")
        if cats.length > 0 then f1.filter (fun p => cats.contains p.category) else f1
      | none => f1
    match search with
    | some s =>
      f3.filter (fun p =>
        ciContains p.name s || ciContains p.description s ||
          p.tags.any (fun t => ciContains t s))
    | none => f3

/-- One comparison step of the relevance comparator of sortPlugins: when the
two flags differ their difference decides the order, otherwise fall through
to the next comparison. -/
def flagStep (x y : Nat) (rest : Bool) : Bool :=
  if x ≠ y then decide (x < y) else rest

/-- The exact-match flag of the relevance comparator (0 when the lowercased
name equals the lowercased search term). -/
def exactFlag (s : String) (p : UnifiedPlugin) : Nat :=
  if ciEq p.name s then 0 else 1

/-- The starts-with flag of the relevance comparator. -/
def startFlag (s : String) (p : UnifiedPlugin) : Nat :=
  if ciStarts p.name s then 0 else 1

/-- The contains flag of the relevance comparator. -/
def containFlag (s : String) (p : UnifiedPlugin) : Nat :=
  if ciContains p.name s then 0 else 1

/-- The relevance comparator of sortPlugins as a may-precede relation:
exact name match first, then name starts with the search term, then name
contains it, finally localeCompare of the names. -/
def relLe (s : String) (a b : UnifiedPlugin) : Bool :=
  flagStep (exactFlag s a) (exactFlag s b)
    (flagStep (startFlag s a) (startFlag s b)
      (flagStep (containFlag s a) (containFlag s b)
        (charListLe a.name.data b.name.data)))

/-- The name comparator of sortPlugins (localeCompare ascending). -/
def nameLe (a b : UnifiedPlugin) : Bool :=
  charListLe a.name.data b.name.data

/-- sortPlugins: a stable sort of a copy of the list, by sort option; the
date-based options keep the current order (local plugins carry no dates);
relevance and any other value use the tiered relevance comparator when a
search term is present and the name order otherwise. -/
def sortPlugins (plugins : List UnifiedPlugin) (sort : String)
    (search : Option String) : List UnifiedPlugin :=
  match sort with
  | "name" => stableSort nameLe plugins
  | "name-desc" => stableSort (fun a b => nameLe b a) plugins
  | "stars" => stableSort (fun a b => decide (b.stars.getD 0 ≤ a.stars.getD 0)) plugins
  | "newest" => plugins
  | "oldest" => plugins
  | "updated" => plugins
  | _ =>
    match search with
    | some s => stableSort (relLe s) plugins
    | none => stableSort nameLe plugins

/-- A row of the plugins table (the columns selected by
getPluginsPaginated).  nameSpace stands for the namespace column. -/
structure PluginRow where
  id : String := ""
  name : String
  nameSpace : Option String := none
  slug : String := ""
  description : Option String := none
  version : Option String := none
  author : Option String := none
  type : String := "plugin"
  categories : Option (List String) := none
  keywords : Option (List String) := none
  repository : Option String := none
  stars : Option Nat := none
  installCommand : Option String := none
  marketplaceId : Option String := none
  marketplaceName : Option String := none
  updatedAt : Nat := 0
  active : Bool := true
  deriving DecidableEq

/-- The where clause of the database branch of getPluginsPaginated: active,
the type filter, the marketplace filter (UUIDs may match the marketplace_id
column or the marketplace name, other values only the name), the
comma-separated category filter (equality for one category, array overlap
for several), and the search filter (two ILIKE matches or literal keyword
membership). -/
def pluginWhere (search : Option String) (type : String)
    (marketplaceId : Option String) (category : Option String)
    (p : PluginRow) : Bool :=
  p.active &&
    (if type ≠ "" ∧ type ≠ "all" then p.type = type else true) &&
    (match marketplaceId with
     | some m =>
       if m = "all" then true
       else if isUUID m then p.marketplaceId = some m || p.marketplaceName = some m
       else p.marketplaceName = some m
     | none => true) &&
    (match category with
     | some c =>
       let cats := ((splitSep ',' c).map trimStr).filter (fun x => x ≠ "")
       match cats with
       | [] => true
       | [c0] => (p.categories.getD []).contains c0
       | cs => cs.any (fun c0 => (p.categories.getD []).contains c0)
     | none => true) &&
    (match search with
     | some s =>
       ciContains p.name s ||
         (match p.description with
          | some d => ciContains d s
          | none => false) ||
         (p.keywords.getD []).contains s
     | none => true)

/-- The CASE expression of the relevance order of the database branch of
getPluginsPaginated: exact name, name starts with, name contains,
description contains, otherwise 4. -/
def pluginDbTier (s : String) (p : PluginRow) : Nat :=
  if ciEq p.name s then 0
  else if ciStarts p.name s then 1
  else if ciContains p.name s then 2
  else if (match p.description with
           | some d => ciContains d s
           | none => false) then 3
  else 4

/-- The order-by of the database branch of getPluginsPaginated as a
may-precede relation, by sort option; relevance with a search term is the
CASE tier then COALESCE(stars, 0) descending, relevance without a search
term (and any unknown value with no search term) is name ascending. -/
def pluginOrderLe (sort : String) (search : Option String) (a b : PluginRow) : Bool :=
  match sort with
  | "name" => charListLe a.name.data b.name.data
  | "name-desc" => charListLe b.name.data a.name.data
  | "newest" => decide (b.updatedAt ≤ a.updatedAt)
  | "oldest" => decide (a.updatedAt ≤ b.updatedAt)
  | "updated" => decide (b.updatedAt ≤ a.updatedAt)
  | "stars" => decide (b.stars.getD 0 ≤ a.stars.getD 0)
  | _ =>
    match search with
    | some s =>
      decide (pluginDbTier s a < pluginDbTier s b) ||
        (decide (pluginDbTier s a = pluginDbTier s b) &&
          decide (b.stars.getD 0 ≤ a.stars.getD 0))
    | none => charListLe a.name.data b.name.data

/-- The database query of getPluginsPaginated: where, order-by and the
1000-row cap that bounds the merge (no offset at this stage). -/
def pluginRowsQuery (table : List PluginRow) (search : Option String)
    (sort : String) (type : String) (marketplaceId : Option String)
    (category : Option String) : List PluginRow :=
  (stableSort (pluginOrderLe sort search)
    (table.filter (pluginWhere search type marketplaceId category))).take 1000

/-- The transformation of a database row to the UnifiedPlugin shape, with
the falsy-value defaults of the source: empty type becomes plugin, missing
description the empty string, the first category or uncategorized, keywords
as tags. -/
def toUnified (p : PluginRow) : UnifiedPlugin where
  type := if p.type = "" then "plugin" else p.type
  name := p.name
  description := p.description.getD ""
  category :=
    match p.categories with
    | some (c :: _) => if c = "" then "uncategorized" else c
    | _ => "uncategorized"
  tags := p.keywords.getD []
  marketplaceId := p.marketplaceId
  marketplaceName := p.marketplaceName
  repository := p.repository
  stars := p.stars
  installCommand := p.installCommand
  nameSpace := p.nameSpace
  author := p.author
  version := p.version

/-- The composite deduplication key of the merge: type plus the lowercased
name. -/
def pluginKey (p : UnifiedPlugin) : String :=
  p.type ++ ":" ++ lowStr p.name

/-- The seen-set merge of getPluginsPaginated: one pass that keeps the first
occurrence of every composite key.  The source iterates the local list and
then the database list against one shared seen set, which is this single
pass over the concatenation. -/
def mergeDedup : List UnifiedPlugin → List String → List UnifiedPlugin
  | [], _ => []
  | p :: rest, seen =>
    if seen.contains (pluginKey p) then mergeDedup rest seen
    else p :: mergeDedup rest (pluginKey p :: seen)

/-- The PaginatedPlugins response shape. -/
structure PaginatedPlugins where
  plugins : List UnifiedPlugin
  total : Nat
  limit : Nat
  offset : Nat
  hasMore : Bool
  deriving DecidableEq

/-- getPluginsPaginated: locals is the output of the five local content
loaders (external static files), table the plugins table, dbOk whether the
database query of step 3 resolves.  Build with Claude requests are served
from the filtered local list alone; other requests merge the capped
database page with the local list, re-sort and slice.  The database branch
is not wrapped in safeDbQuery, so a rejected query propagates as an error
(caught by the HTTP route).  The count query the source also issues in its
Promise.all is unused by the function (total is the merged length). -/
def getPluginsPaginated (locals : List UnifiedPlugin) (table : List PluginRow)
    (limit offset : Nat) (search : Option String) (sort : String)
    (type : String) (marketplaceId : Option String) (category : Option String)
    (dbOk : Bool) : Except Unit PaginatedPlugins :=
  let isBWCOnly : Bool :=
    decide (marketplaceId = some BUILD_WITH_CLAUDE_ID) ||
      decide (marketplaceId = some BUILD_WITH_CLAUDE_MARKETPLACE)
  let isOtherMarketplace : Bool :=
    match marketplaceId with
    | some m => decide (m ≠ "all") && !isBWCOnly
    | none => false
  let localPlugins :=
    if !isOtherMarketplace then
      sortPlugins (filterLocalPlugins locals search type marketplaceId category) sort search
    else []
  if isBWCOnly then
    let paginatedLocal := (localPlugins.drop offset).take limit
    .ok ⟨paginatedLocal, localPlugins.length, limit, offset,
      decide (offset + paginatedLocal.length < localPlugins.length)⟩
  else if dbOk then
    let dbResults := pluginRowsQuery table search sort type marketplaceId category
    let dbPlugins := dbResults.map toUnified
    let merged := mergeDedup (localPlugins ++ dbPlugins) []
    let sortedMerged := sortPlugins merged sort search
    let total := sortedMerged.length
    let paginatedResults := (sortedMerged.drop offset).take limit
    .ok ⟨paginatedResults, total, limit, offset,
      decide (offset + paginatedResults.length < total)⟩
  else .error ()

/-- The GET /api/plugins/list route handler around getPluginsPaginated: a
thrown error is caught and answered with an empty page and HTTP 200, so no
exception reaches the HTTP caller. -/
def pluginsListRoute (locals : List UnifiedPlugin) (table : List PluginRow)
    (limit offset : Nat) (search : Option String) (sort : String)
    (type : String) (marketplaceId : Option String) (category : Option String)
    (dbOk : Bool) : PaginatedPlugins :=
  match getPluginsPaginated locals table limit offset search sort type
    marketplaceId category dbOk with
  | .ok r => r
  | .error _ => ⟨[], 0, limit, offset, false⟩

/-! ## Registry indexer (src/unnamed/part_003) -/

/-- The page ceiling maxPages = 20 of fetchOfficialMCPServers. -/
def officialMaxPages : Nat := 20

/-- The fetch loop of fetchOfficialMCPServers, counting fetches: hasNext i
says whether the i-th fetched page reports a nextCursor.  The do/while body
fetches one page and increments pageCount; the loop continues while the
cursor is set and pageCount < maxPages.  The value is the number of pages
fetched from page index i on. -/
def officialFetchFrom (hasNext : Nat → Bool) (i : Nat) : Nat :=
  if hasNext i ∧ i + 1 < officialMaxPages then 1 + officialFetchFrom hasNext (i + 1)
  else 1
termination_by officialMaxPages - i
decreasing_by simp_wf; omega

/-- The number of pages one run of fetchOfficialMCPServers fetches against
an upstream whose i-th page reports a next cursor iff hasNext i. -/
def officialFetchCount (hasNext : Nat → Bool) : Nat :=
  officialFetchFrom hasNext 0

/-- The number of pages one run of fetchDockerMCPServers fetches: the while
loop follows the next link of every response with no page ceiling, so it
stops only when a response carries no next link.  The argument lists, for
each successive upstream response, whether it carries a next link; the
initial URL is always set, so the first response is always fetched when the
list is non-empty. -/
def dockerFetchCount : List Bool → Nat
  | [] => 0
  | hasNext :: rest => 1 + (if hasNext then dockerFetchCount rest else 0)

/-- A character allowed by the slug character class [a-z0-9-]; anything else
is replaced by a dash. -/
def slugChar (c : Char) : Char :=
  if ('a' ≤ c ∧ c ≤ 'z') ∨ ('0' ≤ c ∧ c ≤ '9') ∨ c = '-' then c else '-'

/-- Collapse every run of dashes to a single dash, the replace(-+, -) step
of generateSlug. -/
def collapseDashes : List Char → List Char
  | [] => []
  | [c] => [c]
  | a :: b :: rest =>
    if a = '-' ∧ b = '-' then collapseDashes (b :: rest)
    else a :: collapseDashes (b :: rest)

/-- The name normalization inside generateSlug: lowercase, replace every
character outside [a-z0-9-] by a dash, collapse dash runs. -/
def normalizeName (name : String) : String :=
  ⟨collapseDashes ((lowStr name).data.map slugChar)⟩

/-- generateSlug: the source-registry label, a dash, and the normalized
name. -/
def generateSlug (name sourceRegistry : String) : String :=
  sourceRegistry ++ "-" ++ normalizeName name

/-- getShortName: the last path segment of a possibly namespaced identifier
(or unknown when empty), lowercased with every character outside [a-z0-9-]
replaced by a dash (no dash-run collapsing at this stage). -/
def getShortName (name : String) : String :=
  if name = "" then "unknown"
  else
    let baseName :=
      if name.data.contains '/' then ((splitSep '/' name).getLast?).getD ""
      else name
    let b := if baseName = "" then "unknown" else baseName
    ⟨(lowStr b).data.map slugChar⟩

/-- The verification field of a raw upstream record. -/
structure RawVerification where
  status : String
  maintainer : Option String := none
  deriving DecidableEq

/-- The sources field of a raw upstream record. -/
structure RawSources where
  github : Option String := none
  docker : Option String := none
  npm : Option String := none
  official : Option String := none
  documentation : Option String := none
  deriving DecidableEq

/-- The stats field of a raw upstream record. -/
structure RawStats where
  github_stars : Option Nat := none
  docker_pulls : Option Nat := none
  npm_downloads : Option Nat := none
  last_updated : Option String := none
  deriving DecidableEq

/-- The source_registry field of a raw upstream record. -/
structure RawSourceRegistry where
  type : String
  url : Option String := none
  deriving DecidableEq

/-- The RawMCPServer internal record shape the fetchers normalize into.
The four payload fields are carried as the opaque serialized strings the
upsert would store. -/
structure RawMCPServer where
  name : String
  display_name : String
  full_name : Option String := none
  category : String := ""
  description : String := ""
  version : Option String := none
  server_type : Option String := none
  vendor : Option String := none
  logo_url : Option String := none
  verification : Option RawVerification := none
  sources : Option RawSources := none
  stats : Option RawStats := none
  source_registry : Option RawSourceRegistry := none
  packages : Option String := none
  remotes : Option String := none
  environment_variables : Option String := none
  installation_methods : Option String := none
  tags : Option (List String) := none
  deriving DecidableEq

/-- JavaScript x || null on an optional string: absent stays absent and the
empty string (falsy) becomes null. -/
def strOrNone (o : Option String) : Option String :=
  match o with
  | some s => if s = "" then none else some s
  | none => none

/-- The descriptive column set an upsert writes on both paths: every column
of the insert values that also appears in the EXCLUDED set of the
onConflictDoUpdate clause (everything except name, slug, sourceRegistry,
active and the timestamps). -/
structure MCPDescr where
  displayName : String
  description : Option String
  version : Option String
  category : String
  tags : List String
  serverType : String
  vendor : Option String
  logoUrl : Option String
  sourceUrl : Option String
  githubUrl : Option String
  dockerUrl : Option String
  npmUrl : Option String
  documentationUrl : Option String
  githubStars : Option Nat
  dockerPulls : Option Nat
  npmDownloads : Option Nat
  packages : Option String
  remotes : Option String
  environmentVariables : Option String
  installationMethods : Option String
  verificationStatus : Option String
  deriving DecidableEq

/-- The descriptive values upsertMCPServer computes from a raw record, with
the falsy-coalescing defaults of the source (utilities category, stdio
server type, community verification, zero counters). -/
def rawDescr (r : RawMCPServer) : MCPDescr where
  displayName := r.display_name
  description := if r.description = "" then none else some r.description
  version := strOrNone r.version
  category := if r.category = "" then "utilities" else r.category
  tags := r.tags.getD []
  serverType := (strOrNone r.server_type).getD "stdio"
  vendor := strOrNone r.vendor
  logoUrl := strOrNone r.logo_url
  sourceUrl := strOrNone (r.source_registry.bind (fun sr => sr.url))
  githubUrl := strOrNone (r.sources.bind (fun s => s.github))
  dockerUrl := strOrNone (r.sources.bind (fun s => s.docker))
  npmUrl := strOrNone (r.sources.bind (fun s => s.npm))
  documentationUrl :=
    match strOrNone (r.sources.bind (fun s => s.documentation)) with
    | some d => some d
    | none => strOrNone (r.sources.bind (fun s => s.official))
  githubStars := some ((r.stats.bind (fun st => st.github_stars)).getD 0)
  dockerPulls := some ((r.stats.bind (fun st => st.docker_pulls)).getD 0)
  npmDownloads := some ((r.stats.bind (fun st => st.npm_downloads)).getD 0)
  packages := r.packages
  remotes := r.remotes
  environmentVariables := r.environment_variables
  installationMethods := r.installation_methods
  verificationStatus :=
    some ((r.verification.bind (fun v => strOrNone (some v.status))).getD "community")

/-- The projection of a table row onto its descriptive column set. -/
def descrOfRow (row : MCPRow) : MCPDescr where
  displayName := row.displayName
  description := row.description
  version := row.version
  category := row.category
  tags := row.tags
  serverType := row.serverType
  vendor := row.vendor
  logoUrl := row.logoUrl
  sourceUrl := row.sourceUrl
  githubUrl := row.githubUrl
  dockerUrl := row.dockerUrl
  npmUrl := row.npmUrl
  documentationUrl := row.documentationUrl
  githubStars := row.githubStars
  dockerPulls := row.dockerPulls
  npmDownloads := row.npmDownloads
  packages := row.packages
  remotes := row.remotes
  environmentVariables := row.environmentVariables
  installationMethods := row.installationMethods
  verificationStatus := row.verificationStatus

/-- The insert path of upsertMCPServer: a fresh row with the descriptive
values, the generated slug, the source registry label, active = true and
fresh timestamps (createdAt and updatedAt take the column defaults NOW(),
lastIndexedAt the new Date() of the insert values). -/
def insertRow (r : RawMCPServer) (sourceRegistry : String) (now : Nat) : MCPRow :=
  let d := rawDescr r
  { id := "", name := r.name, displayName := d.displayName,
    slug := generateSlug r.name sourceRegistry,
    description := d.description, version := d.version, category := d.category,
    tags := d.tags, serverType := d.serverType, vendor := d.vendor,
    logoUrl := d.logoUrl, sourceRegistry := sourceRegistry,
    sourceUrl := d.sourceUrl, githubUrl := d.githubUrl,
    dockerUrl := d.dockerUrl, npmUrl := d.npmUrl,
    documentationUrl := d.documentationUrl, githubStars := d.githubStars,
    dockerPulls := d.dockerPulls, npmDownloads := d.npmDownloads,
    packages := d.packages, remotes := d.remotes,
    environmentVariables := d.environmentVariables,
    installationMethods := d.installationMethods,
    verificationStatus := d.verificationStatus, active := true,
    lastIndexedAt := now, updatedAt := now, createdAt := now,
    lastStatsSync := none }

/-- The conflict path of upsertMCPServer: overwrite the descriptive columns
with the EXCLUDED values, stamp lastIndexedAt from the insert values and
updatedAt = NOW(); name, slug, sourceRegistry, active, createdAt and
lastStatsSync are untouched. -/
def applyUpdate (old : MCPRow) (d : MCPDescr) (now : Nat) : MCPRow :=
  { old with
    displayName := d.displayName, description := d.description,
    version := d.version, category := d.category, tags := d.tags,
    serverType := d.serverType, vendor := d.vendor, logoUrl := d.logoUrl,
    sourceUrl := d.sourceUrl, githubUrl := d.githubUrl,
    dockerUrl := d.dockerUrl, npmUrl := d.npmUrl,
    documentationUrl := d.documentationUrl, githubStars := d.githubStars,
    dockerPulls := d.dockerPulls, npmDownloads := d.npmDownloads,
    packages := d.packages, remotes := d.remotes,
    environmentVariables := d.environmentVariables,
    installationMethods := d.installationMethods,
    verificationStatus := d.verificationStatus,
    lastIndexedAt := now, updatedAt := now }

/-- upsertMCPServer on the table: insert if no row carries the generated
slug, otherwise update the row with that slug (the slug column carries a
unique constraint, the conflict target). -/
def upsertMCPServer (table : List MCPRow) (r : RawMCPServer)
    (sourceRegistry : String) (now : Nat) : List MCPRow :=
  let slug := generateSlug r.name sourceRegistry
  if table.any (fun row => row.slug = slug) then
    table.map (fun row => if row.slug = slug then applyUpdate row (rawDescr r) now else row)
  else table ++ [insertRow r sourceRegistry now]

/-- One indexing run's upsert loop over a fetched record list (each record
paired with its source registry label), in list order, as indexMCPServers
performs record by record. -/
def indexUpsertAll (recs : List (RawMCPServer × String)) (now : Nat)
    (table : List MCPRow) : List MCPRow :=
  recs.foldl (fun t rs => upsertMCPServer t rs.1 rs.2 now) table

/-- Erase the updatedAt and lastIndexedAt timestamp columns of a row, the
only columns a repeated identical upsert may change. -/
def stripTS (row : MCPRow) : MCPRow :=
  { row with updatedAt := 0, lastIndexedAt := 0 }

/-- The descriptive values of the last record of the list whose generated
slug is s, if any. -/
def lastDescr : List (RawMCPServer × String) → String → Option MCPDescr
  | [], _ => none
  | (r, src) :: rest, s =>
    match lastDescr rest s with
    | some d => some d
    | none => if generateSlug r.name src = s then some (rawDescr r) else none

/-- The effect of one upsert run on a single already-present row: the last
record with the row's slug overwrites the descriptive columns; a row whose
slug no record carries is untouched. -/
def applyRecsRow (recs : List (RawMCPServer × String)) (now : Nat)
    (row : MCPRow) : MCPRow :=
  match lastDescr recs row.slug with
  | some d => applyUpdate row d now
  | none => row

/-! ## Stats syncer (src/unnamed/part_003, syncMCPServerStats) -/

/-- The column projection syncMCPServerStats loads for each active server. -/
structure SyncServerRecord where
  id : String
  name : String
  sourceRegistry : String
  dockerUrl : Option String := none
  githubUrl : Option String := none
  githubStars : Option Nat := none
  dockerPulls : Option Nat := none
  npmDownloads : Option Nat := none
  deriving DecidableEq

/-- One update statement against the mcpServers row: the metric column
written (docker pulls or github stars) plus the stamped timestamps. -/
structure ServerStatsUpdate where
  serverId : String
  dockerPulls : Option Nat := none
  githubStars : Option Nat := none
  lastStatsSync : Nat := 0
  updatedAt : Nat := 0
  deriving DecidableEq

/-- One inserted stats-snapshot row. -/
structure SyncSnapshot where
  mcpServerId : String
  githubStars : Nat
  dockerPulls : Nat
  npmDownloads : Nat
  deriving DecidableEq

/-- The per-record body of syncMCPServerStats: dockerRes and githubRes are
the results of fetchDockerStats and fetchGitHubStats (none on any failure,
as both catch and return null).  The Docker branch runs when the record has
a dockerUrl and its source registry is docker; on success it writes the
pull count and inserts a snapshot built from the new pulls and the record's
last-known stars and downloads.  The GitHub branch runs when the record has
a githubUrl; on success it writes the star count and inserts a snapshot
only if the Docker branch did not already insert one in this pass.  The
value is (update statements, inserted snapshots, statsUpdated). -/
def syncOneServer (s : SyncServerRecord) (dockerRes githubRes : Option Nat)
    (now : Nat) : List ServerStatsUpdate × List SyncSnapshot × Bool :=
  let step1 : List ServerStatsUpdate × List SyncSnapshot × Bool :=
    if s.dockerUrl.isSome ∧ s.sourceRegistry = "docker" then
      match dockerRes with
      | some pulls =>
        ([⟨s.id, some pulls, none, now, now⟩],
         [⟨s.id, s.githubStars.getD 0, pulls, s.npmDownloads.getD 0⟩], true)
      | none => ([], [], false)
    else ([], [], false)
  if s.githubUrl.isSome then
    match githubRes with
    | some stars =>
      (step1.1 ++ [⟨s.id, none, some stars, now, now⟩],
       (if !step1.2.2 then
          step1.2.1 ++ [⟨s.id, stars, s.dockerPulls.getD 0, s.npmDownloads.getD 0⟩]
        else step1.2.1), true)
    | none => step1
  else step1

/-! ## Concrete rows and records used by witnesses and counterexamples -/

/-- A local skill used by pagination examples. -/
def lpA : UnifiedPlugin :=
  { type := "skill", name := "alpha", description := "first", category := "general" }

/-- A local skill used by pagination examples. -/
def lpB : UnifiedPlugin :=
  { type := "skill", name := "beta", description := "second", category := "general" }

/-- A local skill used by pagination examples. -/
def lpC : UnifiedPlugin :=
  { type := "skill", name := "gamma", description := "third", category := "general" }

/-- Three local items, a catalog for the pagination counterexample. -/
def localThree : List UnifiedPlugin := [lpA, lpB, lpC]

/-- An active marketplace row of the two-row example table. -/
def exampleMarket1 : MarketplaceRow := { name := "m1", displayName := "M1" }

/-- An active marketplace row of the two-row example table. -/
def exampleMarket2 : MarketplaceRow := { name := "m2", displayName := "M2" }

/-- A marketplaces table with two active rows. -/
def exampleMarketTable : List MarketplaceRow := [exampleMarket1, exampleMarket2]

/-- A database plugin row matching the search term github as a name-starts
match, with low popularity. -/
def pgGithubA : PluginRow := { name := "github-a", stars := some 1, type := "plugin" }

/-- A database plugin row matching the search term github as a name-starts
match, with high popularity. -/
def pgGithubB : PluginRow := { name := "github-b", stars := some 100, type := "plugin" }

/-- An MCP row whose name is exactly github. -/
def mcpGithub : MCPRow :=
  { name := "github", displayName := "GitHub", slug := "official-mcp-github",
    description := some "Official GitHub MCP server", dockerPulls := some 5 }

/-- An MCP row whose name starts with github. -/
def mcpGHA : MCPRow :=
  { name := "github-actions", displayName := "GitHub Actions",
    slug := "official-mcp-github-actions", description := some "CI workflows",
    dockerPulls := some 900 }

/-- An MCP row that only mentions github in its description, with by far the
highest popularity. -/
def mcpAwesome : MCPRow :=
  { name := "awesome-tool", displayName := "Awesome Tool",
    slug := "docker-awesome-tool", description := some "awesome github tool",
    dockerPulls := some 100000 }

/-- A unified plugin named exactly github. -/
def upGithub : UnifiedPlugin :=
  { type := "plugin", name := "github", description := "Official GitHub integration",
    category := "general", stars := some 5 }

/-- A unified plugin whose name starts with github. -/
def upGHA : UnifiedPlugin :=
  { type := "plugin", name := "github-actions", description := "CI workflows",
    category := "general", stars := some 50 }

/-- A unified plugin named awesome github tool whose description mentions
github. -/
def upAwesome : UnifiedPlugin :=
  { type := "plugin", name := "awesome github tool",
    description := "an awesome github tool", category := "general",
    stars := some 5000 }

/-- A unified plugin matching a search only in its description, with a name
late in the alphabet. -/
def upZebra : UnifiedPlugin :=
  { type := "plugin", name := "zebra", description := "github rocks",
    category := "general", stars := some 9 }

/-- An inactive (soft-deleted) MCP server row. -/
def inactiveServerRow : MCPRow :=
  { name := "dead", displayName := "Dead", slug := "official-mcp-dead", active := false }

/-- An active MCP server row. -/
def activeServerRow : MCPRow :=
  { name := "alive", displayName := "Alive", slug := "official-mcp-alive", active := true }

/-- An inactive (soft-deleted) marketplace row. -/
def inactiveMarketplaceRow : MarketplaceRow :=
  { name := "m-dead", displayName := "Dead Market", active := false }

/-- A local skill whose key collides with a database item. -/
def localSkillX : UnifiedPlugin :=
  { type := "skill", name := "Alpha", description := "local definition", category := "general" }

/-- A database item sharing the composite key of localSkillX up to case. -/
def dbSkillX : UnifiedPlugin :=
  { type := "skill", name := "alpha", description := "database twin", category := "general" }

/-- A raw upstream record whose name normalizes to foo-bar. -/
def upsR1 : RawMCPServer :=
  { name := "foo.bar", display_name := "Foo Bar", description := "first fetch" }

/-- A distinct raw upstream record whose name also normalizes to foo-bar. -/
def upsR2 : RawMCPServer :=
  { name := "foo_bar", display_name := "Foo Bar II", description := "second fetch" }

/-- A docker-sourced sync record carrying both a docker and a github URL. -/
def syncDockerGithub : SyncServerRecord :=
  { id := "id1", name := "srv", sourceRegistry := "docker",
    dockerUrl := some "https://hub.docker.com/r/mcp/srv",
    githubUrl := some "https://github.com/o/srv",
    githubStars := some 3, dockerPulls := some 4, npmDownloads := some 5 }

/-- Stated from the claim's words, not from the source: the relevance order
the claim asserts for every listing — exact name match, name-starts match,
display-name substring, description substring, everything else. -/
def claimTier (s : String) (p : UnifiedPlugin) : Nat :=
  if ciEq p.name s then 0
  else if ciStarts p.name s then 1
  else if ciContains p.name s then 2
  else if ciContains p.description s then 3
  else 4

/-- Stated from the claim's words, not from the source: claimed tier order
with each tier internally ordered by descending popularity. -/
def claimRelevanceLe (s : String) (a b : UnifiedPlugin) : Bool :=
  decide (claimTier s a < claimTier s b) ||
    (decide (claimTier s a = claimTier s b) &&
      decide (b.stars.getD 0 ≤ a.stars.getD 0))

/-! ## General lemmas: stable sort, orders, slices, the merge -/

theorem sortInsert_perm {α : Type} (le : α → α → Bool) (x : α) (l : List α) :
    (sortInsert le x l).Perm (x :: l) := by
  induction l with
  | nil => simp [sortInsert]
  | cons y ys ih =>
    simp only [sortInsert]
    split
    · exact List.Perm.refl _
    · exact (ih.cons y).trans (List.Perm.swap x y ys)

theorem stableSort_perm {α : Type} (le : α → α → Bool) (l : List α) :
    (stableSort le l).Perm l := by
  induction l with
  | nil => simp [stableSort]
  | cons x xs ih =>
    exact (sortInsert_perm le x (stableSort le xs)).trans (ih.cons x)

theorem mem_sortInsert {α : Type} {le : α → α → Bool} {x a : α} {l : List α} :
    a ∈ sortInsert le x l ↔ a = x ∨ a ∈ l := by
  rw [(sortInsert_perm le x l).mem_iff, List.mem_cons]

theorem sortInsert_pairwise {α : Type} {le : α → α → Bool}
    (htrans : ∀ a b c, le a b = true → le b c = true → le a c = true)
    (htotal : ∀ a b, le a b || le b a)
    {x : α} {l : List α} (h : l.Pairwise (fun a b => le a b = true)) :
    (sortInsert le x l).Pairwise (fun a b => le a b = true) := by
  induction l with
  | nil => simp [sortInsert]
  | cons y ys ih =>
    rcases List.pairwise_cons.mp h with ⟨hy, hys⟩
    simp only [sortInsert]
    split
    · rename_i hxy
      refine List.pairwise_cons.mpr ⟨?_, h⟩
      intro z hz
      rcases List.mem_cons.mp hz with rfl | hz'
      · exact hxy
      · exact htrans x y z hxy (hy z hz')
    · rename_i hxy
      have hyx : le y x = true := by
        have := htotal x y
        simp only [Bool.or_eq_true] at this
        rcases this with h1 | h1
        · exact absurd h1 hxy
        · exact h1
      refine List.pairwise_cons.mpr ⟨?_, ih hys⟩
      intro z hz
      rcases mem_sortInsert.mp hz with rfl | hz'
      · exact hyx
      · exact hy z hz'

theorem stableSort_pairwise {α : Type} {le : α → α → Bool}
    (htrans : ∀ a b c, le a b = true → le b c = true → le a c = true)
    (htotal : ∀ a b, le a b || le b a) (l : List α) :
    (stableSort le l).Pairwise (fun a b => le a b = true) := by
  induction l with
  | nil => simp [stableSort]
  | cons x xs ih => exact sortInsert_pairwise htrans htotal ih

theorem charListLe_total (x y : List Char) : charListLe x y || charListLe y x := by
  induction x generalizing y with
  | nil => simp [charListLe]
  | cons a as ih =>
    cases y with
    | nil => simp [charListLe]
    | cons b bs =>
      simp only [charListLe]
      by_cases h1 : a.toNat < b.toNat
      · simp [h1]
      · by_cases h2 : b.toNat < a.toNat
        · simp [h1, h2]
        · simpa [h1, h2] using ih bs

theorem charListLe_trans {x y z : List Char}
    (h1 : charListLe x y = true) (h2 : charListLe y z = true) :
    charListLe x z = true := by
  induction x generalizing y z with
  | nil => simp [charListLe]
  | cons a as ih =>
    cases y with
    | nil => simp [charListLe] at h1
    | cons b bs =>
      cases z with
      | nil => simp [charListLe] at h2
      | cons c cs =>
        simp only [charListLe] at h1 h2 ⊢
        rcases Nat.lt_trichotomy a.toNat b.toNat with hab | hab | hab
        · rcases Nat.lt_trichotomy b.toNat c.toNat with hbc | hbc | hbc
          · simp [show a.toNat < c.toNat by omega]
          · simp [show a.toNat < c.toNat by omega]
          · simp [show ¬ b.toNat < c.toNat by omega,
              show c.toNat < b.toNat by omega] at h2
        · have h1x : charListLe as bs = true := by
            simpa [show ¬ a.toNat < b.toNat by omega,
              show ¬ b.toNat < a.toNat by omega] using h1
          rcases Nat.lt_trichotomy b.toNat c.toNat with hbc | hbc | hbc
          · simp [show a.toNat < c.toNat by omega]
          · have h2x : charListLe bs cs = true := by
              simpa [show ¬ b.toNat < c.toNat by omega,
                show ¬ c.toNat < b.toNat by omega] using h2
            simp [show ¬ a.toNat < c.toNat by omega,
              show ¬ c.toNat < a.toNat by omega]
            exact ih h1x h2x
          · simp [show ¬ b.toNat < c.toNat by omega,
              show c.toNat < b.toNat by omega] at h2
        · simp [show ¬ a.toNat < b.toNat by omega,
            show b.toNat < a.toNat by omega] at h1

theorem flagStep_eq (x y : Nat) (r : Bool) :
    flagStep x y r = (decide (x < y) || (decide (x = y) && r)) := by
  unfold flagStep
  by_cases h : x = y
  · simp [h]
  · have : ¬ x = y := h
    simp [this]

theorem flagStep_trans {x y z : Nat} {r1 r2 r3 : Bool}
    (hr : r1 = true → r2 = true → r3 = true)
    (h1 : flagStep x y r1 = true) (h2 : flagStep y z r2 = true) :
    flagStep x z r3 = true := by
  simp only [flagStep_eq, Bool.or_eq_true, Bool.and_eq_true, decide_eq_true_eq] at h1 h2 ⊢
  rcases h1 with h1 | ⟨rfl, h1⟩
  · rcases h2 with h2 | ⟨rfl, h2⟩
    · exact Or.inl (by omega)
    · exact Or.inl h1
  · rcases h2 with h2 | ⟨rfl, h2⟩
    · exact Or.inl h2
    · exact Or.inr ⟨rfl, hr h1 h2⟩

theorem flagStep_total {x y : Nat} {r1 r2 : Bool} (hr : r1 || r2) :
    flagStep x y r1 || flagStep y x r2 := by
  simp only [flagStep_eq, Bool.or_eq_true, Bool.and_eq_true, decide_eq_true_eq] at hr ⊢
  rcases Nat.lt_trichotomy x y with h | h | h
  · exact Or.inl (Or.inl h)
  · rcases hr with hr | hr
    · exact Or.inl (Or.inr ⟨h, hr⟩)
    · exact Or.inr (Or.inr ⟨h.symm, hr⟩)
  · exact Or.inr (Or.inl h)

theorem relLe_trans (s : String) (a b c : UnifiedPlugin)
    (h1 : relLe s a b = true) (h2 : relLe s b c = true) : relLe s a c = true := by
  unfold relLe at h1 h2 ⊢
  exact flagStep_trans
    (fun p1 p2 => flagStep_trans
      (fun q1 q2 => flagStep_trans
        (fun w1 w2 => charListLe_trans w1 w2) q1 q2) p1 p2) h1 h2

theorem relLe_total (s : String) (a b : UnifiedPlugin) :
    relLe s a b || relLe s b a := by
  unfold relLe
  exact flagStep_total (flagStep_total (flagStep_total (charListLe_total _ _)))

theorem mcpRelLe_trans (s : String) (a b c : MCPRow)
    (h1 : mcpRelLe s a b = true) (h2 : mcpRelLe s b c = true) : mcpRelLe s a c = true := by
  simp only [mcpRelLe, Bool.or_eq_true, Bool.and_eq_true, decide_eq_true_eq] at h1 h2 ⊢
  omega

theorem mcpRelLe_total (s : String) (a b : MCPRow) :
    mcpRelLe s a b || mcpRelLe s b a := by
  simp only [mcpRelLe, Bool.or_eq_true, Bool.and_eq_true, decide_eq_true_eq]
  omega

theorem sortPlugins_perm (ps : List UnifiedPlugin) (sort : String)
    (search : Option String) : (sortPlugins ps sort search).Perm ps := by
  unfold sortPlugins
  split
  · exact stableSort_perm ..
  · exact stableSort_perm ..
  · exact stableSort_perm ..
  · exact List.Perm.refl _
  · exact List.Perm.refl _
  · exact List.Perm.refl _
  · split
    · exact stableSort_perm ..
    · exact stableSort_perm ..

theorem slice_length_le {α : Type} (L : List α) (limit offset : Nat) :
    ((L.drop offset).take limit).length ≤ limit := by
  simp [List.length_take]

theorem slice_length_add {α : Type} (L : List α) (limit offset : Nat)
    (h : offset ≤ L.length) :
    offset + ((L.drop offset).take limit).length ≤ L.length := by
  simp [List.length_take, List.length_drop]
  omega

theorem slice_nil_of_lt {α : Type} (L : List α) (limit offset : Nat)
    (h : L.length < offset) : (L.drop offset).take limit = [] := by
  have hd : L.drop offset = [] := List.drop_eq_nil_of_le (by omega)
  simp [hd]

theorem mergeDedup_subset {p : UnifiedPlugin} :
    ∀ {l : List UnifiedPlugin} {seen : List String}, p ∈ mergeDedup l seen → p ∈ l := by
  intro l
  induction l with
  | nil => intro seen h; simp [mergeDedup] at h
  | cons q rest ih =>
    intro seen h
    simp only [mergeDedup] at h
    split at h
    · exact List.mem_cons_of_mem q (ih h)
    · rcases List.mem_cons.mp h with rfl | h'
      · exact List.mem_cons_self ..
      · exact List.mem_cons_of_mem q (ih h')

theorem mergeDedup_mem_key {p : UnifiedPlugin} :
    ∀ {l : List UnifiedPlugin} {seen : List String},
      p ∈ mergeDedup l seen → pluginKey p ∈ seen → False := by
  intro l
  induction l with
  | nil => intro seen h; simp [mergeDedup] at h
  | cons q rest ih =>
    intro seen h hk
    simp only [mergeDedup] at h
    split at h
    · exact ih h hk
    · rename_i hq
      rcases List.mem_cons.mp h with rfl | h'
      · exact hq (List.elem_eq_true_of_mem hk)
      · exact ih h' (List.mem_cons_of_mem _ hk)

theorem mergeDedup_pairwise_keys :
    ∀ (l : List UnifiedPlugin) (seen : List String),
      (mergeDedup l seen).Pairwise (fun a b => pluginKey a ≠ pluginKey b) := by
  intro l
  induction l with
  | nil => intro seen; simp [mergeDedup]
  | cons q rest ih =>
    intro seen
    simp only [mergeDedup]
    split
    · exact ih seen
    · refine List.pairwise_cons.mpr ⟨?_, ih _⟩
      intro b hb heq
      exact mergeDedup_mem_key hb (by rw [← heq]; exact List.mem_cons_self ..)

theorem mergeDedup_local_precedence {p : UnifiedPlugin} (dbs : List UnifiedPlugin) :
    ∀ (locals : List UnifiedPlugin) (seen : List String),
      p ∈ mergeDedup (locals ++ dbs) seen →
      pluginKey p ∈ locals.map pluginKey → pluginKey p ∉ seen → p ∈ locals := by
  intro locals
  induction locals with
  | nil => intro seen _ hk; simp at hk
  | cons l ls ih =>
    intro seen h hk hns
    simp only [List.map_cons, List.mem_cons] at hk
    simp only [List.cons_append, mergeDedup] at h
    split at h
    · rename_i hseen
      rcases hk with hkl | hkls
      · exact absurd (List.mem_of_elem_eq_true (hkl ▸ hseen)) hns
      · exact List.mem_cons_of_mem l (ih seen h hkls hns)
    · rcases List.mem_cons.mp h with rfl | h'
      · exact List.mem_cons_self ..
      · have hns2 : pluginKey p ∉ pluginKey l :: seen := fun hmem =>
          mergeDedup_mem_key h' hmem
        rcases hk with hkl | hkls
        · exact absurd (hkl ▸ List.mem_cons_self ..) hns2
        · exact List.mem_cons_of_mem l (ih _ h' hkls hns2)

/-! ## Claim theorems -/

/-- C1: safeDbQuery with the clock explicit: with the breaker closed a
successful operation returns its result with fromDb = true; with the breaker
closed a rejected operation returns the fallback with fromDb = false and
opens the single shared breaker, recording the failure time; while the
breaker is open and the failure lies at most 30 seconds in the past, every
call (whatever its operation) returns its fallback with fromDb = false
without invoking the operation and leaves the breaker state unchanged, so
the same holds of every subsequent call within the window; and once more
than 30 seconds have passed, the next call goes back through the try block,
invoking its underlying operation again. -/
theorem safeDbQuery_breaker_behavior :
    (∀ (T : Type) (st : Breaker) (now : Nat) (r fb : T),
       st.circuitOpen = false →
       safeDbQuery st now (some r) fb = ⟨⟨false, st.circuitOpenedAt⟩, r, true, true⟩) ∧
    (∀ (T : Type) (st : Breaker) (now : Nat) (fb : T),
       st.circuitOpen = false →
       safeDbQuery st now none fb = ⟨⟨true, now⟩, fb, false, true⟩) ∧
    (∀ (T : Type) (st : Breaker) (now : Nat) (op : Option T) (fb : T),
       st.circuitOpen = true → now - st.circuitOpenedAt ≤ CIRCUIT_TTL_MS →
       safeDbQuery st now op fb = ⟨st, fb, false, false⟩) ∧
    (∀ (T : Type) (st : Breaker) (now : Nat) (op : Option T) (fb : T),
       st.circuitOpen = true → CIRCUIT_TTL_MS < now - st.circuitOpenedAt →
       safeDbQuery st now op fb = attemptQuery st.circuitOpenedAt now op fb ∧
         (safeDbQuery st now op fb).invoked = true) := by
  refine ⟨?_, ?_, ?_, ?_⟩
  · intro T st now r fb h
    simp [safeDbQuery, attemptQuery, h]
  · intro T st now fb h
    simp [safeDbQuery, attemptQuery, h]
  · intro T st now op fb h1 h2
    simp only [safeDbQuery, h1, if_true]
    rw [if_neg (by omega)]
  · intro T st now op fb h1 h2
    simp only [safeDbQuery, h1, if_true]
    rw [if_pos (by omega)]
    refine ⟨rfl, ?_⟩
    cases op <;> simp [attemptQuery]

/-- Witness for C1 at concrete inputs: a success with the breaker closed, a
failure opening the breaker, a skipped call 29999 ms after the failure, and
an invoked call 30001 ms after the failure. -/
theorem safeDbQuery_breaker_behavior_witness :
    safeDbQuery (Breaker.mk false 0) 5 (some 42) 0 = ⟨⟨false, 0⟩, 42, true, true⟩ ∧
    safeDbQuery (Breaker.mk false 0) 5 (none : Option Nat) 0 = ⟨⟨true, 5⟩, 0, false, true⟩ ∧
    safeDbQuery (Breaker.mk true 5) 30004 (some 42) 0 = ⟨⟨true, 5⟩, 0, false, false⟩ ∧
    (safeDbQuery (Breaker.mk true 5) 30006 (some 42) 0).invoked = true := by
  refine ⟨?_, ?_, ?_, ?_⟩
  · exact safeDbQuery_breaker_behavior.1 Nat ⟨false, 0⟩ 5 42 0 rfl
  · exact safeDbQuery_breaker_behavior.2.1 Nat ⟨false, 0⟩ 5 0 rfl
  · exact safeDbQuery_breaker_behavior.2.2.1 Nat ⟨true, 5⟩ 30004 (some 42) 0 rfl (by decide)
  · exact (safeDbQuery_breaker_behavior.2.2.2 Nat ⟨true, 5⟩ 30006 (some 42) 0 rfl (by decide)).2

theorem officialFetchFrom_le (hasNext : Nat → Bool) :
    ∀ (k i : Nat), officialMaxPages - i ≤ k → i < officialMaxPages →
      officialFetchFrom hasNext i ≤ officialMaxPages - i := by
  intro k
  induction k with
  | zero =>
    intro i h1 h2
    simp only [officialMaxPages] at h1 h2
    omega
  | succ k ih =>
    intro i h1 h2
    rw [officialFetchFrom]
    split
    · rename_i hcond
      have hb := ih (i + 1) (by simp only [officialMaxPages] at *; omega) hcond.2
      simp only [officialMaxPages] at *
      omega
    · simp only [officialMaxPages] at *
      omega

theorem dockerFetchCount_replicate (n : Nat) :
    dockerFetchCount (List.replicate n true ++ [false]) = n + 1 := by
  induction n with
  | zero => simp [dockerFetchCount]
  | succ n ih =>
    rw [List.replicate_succ, List.cons_append]
    simp [dockerFetchCount, ih]
    omega

/-- C6 counterexample: an upstream whose first 24 responses each report a
next link makes fetchDockerMCPServers fetch 25 pages, more than the claimed
20-page ceiling; the Docker Hub loop has no page ceiling at all. -/
theorem docker_fetch_exceeds_page_ceiling :
    dockerFetchCount (List.replicate 24 true ++ [false]) = 25 ∧
      ¬ dockerFetchCount (List.replicate 24 true ++ [false]) ≤ 20 := by
  constructor
  · decide
  · decide

/-- C6 amended: fetchOfficialMCPServers fetches at most 20 pages whatever
next cursors the upstream reports, but fetchDockerMCPServers follows next
links with no page ceiling: an upstream reporting n consecutive next links
is fetched n + 1 times, so only the official source is bounded by the
20-page ceiling and an unbounded next-link sequence keeps the Docker loop
fetching without bound. -/
theorem fetch_page_ceiling :
    (∀ hasNext : Nat → Bool, officialFetchCount hasNext ≤ officialMaxPages) ∧
    (∀ n : Nat, dockerFetchCount (List.replicate n true ++ [false]) = n + 1) := by
  constructor
  · intro hasNext
    have h := officialFetchFrom_le hasNext officialMaxPages 0 (by omega) (by decide)
    simpa [officialFetchCount] using h
  · exact dockerFetchCount_replicate

/-- C4: in the unified plugin listing's merged result (the merged and
re-sorted list the page is sliced from), no two items share the composite
key of type and lowercased name, and every item whose key occurs among the
local items is itself a local item — so a database item sharing type and
case-insensitive name with a local item never appears, whatever the
requested sort order and search term. -/
theorem merged_dedup_invariant :
    ∀ (locals dbs : List UnifiedPlugin) (sort : String) (search : Option String),
      (sortPlugins (mergeDedup (locals ++ dbs) []) sort search).Pairwise
        (fun a b => pluginKey a ≠ pluginKey b) ∧
      ∀ p ∈ sortPlugins (mergeDedup (locals ++ dbs) []) sort search,
        pluginKey p ∈ locals.map pluginKey → p ∈ locals := by
  intro locals dbs sort search
  have hperm := sortPlugins_perm (mergeDedup (locals ++ dbs) []) sort search
  constructor
  · exact (hperm.pairwise_iff (fun h => Ne.symm h)).mpr
      (mergeDedup_pairwise_keys _ [])
  · intro p hp hk
    exact mergeDedup_local_precedence dbs locals [] (hperm.mem_iff.mp hp) hk (by simp)

/-- Witness for C4: a local skill named Alpha and a database twin named
alpha share the composite key skill plus lowercased name; the merged result
has pairwise-distinct keys and the item carrying the shared key is the local
one. -/
theorem merged_dedup_invariant_witness :
    (sortPlugins (mergeDedup ([localSkillX] ++ [dbSkillX]) []) "relevance" none).Pairwise
      (fun a b => pluginKey a ≠ pluginKey b) ∧
    localSkillX ∈ ([localSkillX] : List UnifiedPlugin) := by
  constructor
  · exact (merged_dedup_invariant [localSkillX] [dbSkillX] "relevance" none).1
  · exact (merged_dedup_invariant [localSkillX] [dbSkillX] "relevance" none).2
      localSkillX (by decide) (by decide)

/-- C5 counterexample: under search github with sort relevance, the unified
plugin listing returns the two name-starts matches github-a (1 star) and
github-b (100 stars) in alphabetical order, so the page is not ordered by
the claimed tiers with descending popularity inside each tier: the
lower-popularity item comes first. -/
theorem relevance_popularity_tiebreak_violation :
    ((pluginsListRoute [] [pgGithubA, pgGithubB] 50 0 (some "github") "relevance"
        "all" none none true).plugins.map (fun p => (p.name, p.stars)) =
      [("github-a", some 1), ("github-b", some 100)]) ∧
    ¬ (pluginsListRoute [] [pgGithubA, pgGithubB] 50 0 (some "github") "relevance"
        "all" none none true).plugins.Pairwise
        (fun a b => claimRelevanceLe "github" a b = true) := by
  constructor
  · decide
  · decide

/-- C5 amended: the tiered relevance order with a popularity tie-break holds
of the database-side order of the MCP listing (tiers: exact name, name
starts-with, display-name substring, description substring, else; ties by
descending docker pulls), while the in-memory sortPlugins used by the
unified plugin listing orders by exact name, name starts-with and name
substring only, with an alphabetical (not popularity) tie-break and no
description tier.  On the three-item example of the claim both orders put
the exact match first, the name-starts match second and the item that only
mentions github in its description (or name) last, even though that item is
by far the most popular. -/
theorem relevance_sort_orders :
    (∀ (table : List MCPRow) (s : String),
       (stableSort (mcpOrderLe "relevance" (some s)) table).Pairwise
         (fun a b => mcpRelLe s a b = true)) ∧
    (∀ (ps : List UnifiedPlugin) (s : String),
       (sortPlugins ps "relevance" (some s)).Pairwise
         (fun a b => relLe s a b = true)) ∧
    ((getMCPServersPaginated [mcpAwesome, mcpGHA, mcpGithub] ⟨false, 0⟩ true 0 50 0
        (some "github") "relevance" none none none).2.servers.map (fun r => r.name) =
      ["github", "github-actions", "awesome-tool"]) ∧
    ((sortPlugins [upAwesome, upGHA, upGithub] "relevance" (some "github")).map
        (fun p => p.name) = ["github", "github-actions", "awesome github tool"]) := by
  refine ⟨?_, ?_, ?_, ?_⟩
  · intro table s
    exact stableSort_pairwise (mcpRelLe_trans s) (mcpRelLe_total s) table
  · intro ps s
    exact stableSort_pairwise (relLe_trans s) (relLe_total s) ps
  · decide
  · decide

/-- C2 counterexample: a marketplace listing call against a table of two
active rows whose count query succeeds and whose page query then fails
returns the empty item list with total = 2 and hasMore = true — not the
claimed total = 0 and hasMore = false. -/
theorem marketplaces_pageonly_failure_nonzero_total :
    (getMarketplacesPaginated exampleMarketTable ⟨false, 0⟩ true false 0 0 20 0
        none "relevance").2.marketplaces = [] ∧
    (getMarketplacesPaginated exampleMarketTable ⟨false, 0⟩ true false 0 0 20 0
        none "relevance").2.total = 2 ∧
    (getMarketplacesPaginated exampleMarketTable ⟨false, 0⟩ true false 0 0 20 0
        none "relevance").2.hasMore = true := by
  refine ⟨?_, ?_, ?_⟩ <;> decide

/-- C2 amended: when the single wrapped database operation of the MCP
listing fails, the caller receives servers = [], total = 0, hasMore = false
whatever the breaker state; when the unwrapped database query of the
unified plugin listing fails (any non-local-marketplace request), the HTTP
route catches the error and answers plugins = [], total = 0,
hasMore = false; and when the marketplace listing's count query fails with
the breaker closed, the opened breaker suppresses the page query within the
30-second window and the caller receives marketplaces = [], total = 0,
hasMore = false.  (When only the marketplace page query fails after a
successful count, the counterexample shows the caller instead receives the
true total with an empty item list.)  All three paths return a well-formed
page rather than raising. -/
theorem listing_failure_empty_page :
    (∀ (table : List MCPRow) (brk : Breaker) (now limit offset : Nat)
       (search : Option String) (sort : String)
       (category sourceRegistry verification : Option String),
       (getMCPServersPaginated table brk false now limit offset search sort
           category sourceRegistry verification).2 =
         ⟨[], 0, limit, offset, false⟩) ∧
    (∀ (locals : List UnifiedPlugin) (table : List PluginRow)
       (limit offset : Nat) (search : Option String) (sort type : String)
       (mid category : Option String),
       mid ≠ some BUILD_WITH_CLAUDE_ID → mid ≠ some BUILD_WITH_CLAUDE_MARKETPLACE →
       pluginsListRoute locals table limit offset search sort type mid category false =
         ⟨[], 0, limit, offset, false⟩) ∧
    (∀ (table : List MarketplaceRow) (t : Nat) (resultsOk : Bool)
       (now1 now2 limit offset : Nat) (search : Option String) (sort : String),
       now2 - now1 ≤ CIRCUIT_TTL_MS →
       (getMarketplacesPaginated table ⟨false, t⟩ false resultsOk now1 now2
           limit offset search sort).2 =
         ⟨[], 0, false⟩) := by
  refine ⟨?_, ?_, ?_⟩
  · intro table brk now limit offset search sort category sourceRegistry verification
    rcases brk with ⟨o, t⟩
    cases o
    · simp [getMCPServersPaginated, safeDbQuery, attemptQuery,
        transformToMCPServerWithParsedJSON]
    · by_cases hc : CIRCUIT_TTL_MS < now - t <;>
        simp [getMCPServersPaginated, safeDbQuery, attemptQuery,
          transformToMCPServerWithParsedJSON, hc]
  · intro locals table limit offset search sort type mid category h1 h2
    simp [pluginsListRoute, getPluginsPaginated, h1, h2]
  · intro table t resultsOk now1 now2 limit offset search sort h
    have hle : ¬ (now2 - now1 > CIRCUIT_TTL_MS) := by omega
    cases resultsOk <;>
      simp [getMarketplacesPaginated, safeDbQuery, attemptQuery, hle]

/-- Witness for C2 at concrete inputs: an MCP listing failure, a unified
plugin listing failure on the all-marketplaces path, and a marketplace
count-query failure, each yielding the well-formed empty page. -/
theorem listing_failure_empty_page_witness :
    (getMCPServersPaginated [activeServerRow] ⟨false, 0⟩ false 0 50 0 none
        "downloads" none none none).2 = ⟨[], 0, 50, 0, false⟩ ∧
    pluginsListRoute localThree [] 50 0 none "relevance" "all" none none false =
      ⟨[], 0, 50, 0, false⟩ ∧
    (getMarketplacesPaginated exampleMarketTable ⟨false, 0⟩ false true 0 0 20 0
        none "relevance").2 = ⟨[], 0, false⟩ := by
  refine ⟨?_, ?_, ?_⟩
  · exact listing_failure_empty_page.1 [activeServerRow] ⟨false, 0⟩ 0 50 0 none
      "downloads" none none none
  · exact listing_failure_empty_page.2.1 localThree [] 50 0 none "relevance" "all"
      none none (by decide) (by decide)
  · exact listing_failure_empty_page.2.2 exampleMarketTable 0 true 0 0 20 0 none
      "relevance" (by decide)

/-- C3 counterexample: a unified plugin listing call with valid inputs
(limit 5, offset 10) over a three-item catalog returns the truthful
total 3 and an empty page, but offset + returned_count = 10 exceeds
total = 3, refuting the claimed inequality offset + returned_count ≤ total. -/
theorem pagination_offset_beyond_total_violation :
    (pluginsListRoute localThree [] 5 10 none "relevance" "all"
        (some BUILD_WITH_CLAUDE_ID) none true).plugins = [] ∧
    (pluginsListRoute localThree [] 5 10 none "relevance" "all"
        (some BUILD_WITH_CLAUDE_ID) none true).total = 3 ∧
    ¬ ((pluginsListRoute localThree [] 5 10 none "relevance" "all"
          (some BUILD_WITH_CLAUDE_ID) none true).offset +
        (pluginsListRoute localThree [] 5 10 none "relevance" "all"
          (some BUILD_WITH_CLAUDE_ID) none true).plugins.length ≤
       (pluginsListRoute localThree [] 5 10 none "relevance" "all"
          (some BUILD_WITH_CLAUDE_ID) none true).total) := by
  refine ⟨?_, ?_, ?_⟩ <;> decide

/-- With the breaker closed and both operations resolving, the marketplace
listing is the transformed page slice with the count-query total. -/
theorem getMarketplacesPaginated_success (table : List MarketplaceRow)
    (t now1 now2 limit offset : Nat) (search : Option String) (sort : String) :
    (getMarketplacesPaginated table ⟨false, t⟩ true true now1 now2 limit offset
        search sort).2 =
      ⟨(marketplaceRowsQuery table search sort limit offset).map transformRow,
       marketplaceCountQuery table search,
       decide (offset + (marketplaceRowsQuery table search sort limit offset).length <
         marketplaceCountQuery table search)⟩ := rfl

theorem slicePage_bounds {α : Type} (L : List α) (limit offset : Nat) :
    ((L.drop offset).take limit).length ≤ limit ∧
    (offset ≤ L.length → offset + ((L.drop offset).take limit).length ≤ L.length) ∧
    ((decide (offset + ((L.drop offset).take limit).length < L.length) = true) ↔
      offset + ((L.drop offset).take limit).length < L.length) ∧
    (L.length < offset → (L.drop offset).take limit = [] ∧
      decide (offset + ((L.drop offset).take limit).length < L.length) = false) := by
  refine ⟨slice_length_le .., fun h => slice_length_add _ _ _ h, by simp,
    fun h => ⟨slice_nil_of_lt _ _ _ h, ?_⟩⟩
  simp [slice_nil_of_lt _ _ _ h]
  omega

/-- C3 amended: every successful unified plugin listing call returns a page
with returned_count ≤ limit, and hasMore holds exactly when
offset + returned_count < total; the inequality
offset + returned_count ≤ total holds whenever offset ≤ total, and when
offset exceeds total the page is empty with hasMore = false (the claimed
inequality fails there only because offset itself exceeds total).  The same
holds of the marketplace listing on its success path. -/
theorem pagination_bounds :
    (∀ (locals : List UnifiedPlugin) (table : List PluginRow) (limit offset : Nat)
       (search : Option String) (sort type : String) (mid category : Option String)
       (dbOk : Bool) (r : PaginatedPlugins),
       getPluginsPaginated locals table limit offset search sort type mid category dbOk =
         Except.ok r →
       r.plugins.length ≤ limit ∧
       (offset ≤ r.total → offset + r.plugins.length ≤ r.total) ∧
       (r.hasMore = true ↔ offset + r.plugins.length < r.total) ∧
       (r.total < offset → r.plugins = [] ∧ r.hasMore = false)) ∧
    (∀ (table : List MarketplaceRow) (t now1 now2 limit offset : Nat)
       (search : Option String) (sort : String),
       (getMarketplacesPaginated table ⟨false, t⟩ true true now1 now2 limit offset
           search sort).2.marketplaces.length ≤ limit ∧
       (offset ≤ (getMarketplacesPaginated table ⟨false, t⟩ true true now1 now2 limit
           offset search sort).2.total →
         offset + (getMarketplacesPaginated table ⟨false, t⟩ true true now1 now2 limit
           offset search sort).2.marketplaces.length ≤
           (getMarketplacesPaginated table ⟨false, t⟩ true true now1 now2 limit
             offset search sort).2.total) ∧
       ((getMarketplacesPaginated table ⟨false, t⟩ true true now1 now2 limit offset
           search sort).2.hasMore = true ↔
         offset + (getMarketplacesPaginated table ⟨false, t⟩ true true now1 now2 limit
           offset search sort).2.marketplaces.length <
           (getMarketplacesPaginated table ⟨false, t⟩ true true now1 now2 limit
             offset search sort).2.total)) := by
  constructor
  · intro locals table limit offset search sort type mid category dbOk r h
    dsimp only [getPluginsPaginated] at h
    split at h
    · rw [Except.ok.injEq] at h
      subst h
      exact slicePage_bounds _ limit offset
    · split at h
      · rw [Except.ok.injEq] at h
        subst h
        exact slicePage_bounds _ limit offset
      · exact absurd h (by simp)
  · intro table t now1 now2 limit offset search sort
    rw [getMarketplacesPaginated_success]
    have hS : (stableSort (marketplaceOrderLe sort)
        (table.filter (marketplaceWhere search))).length =
        (table.filter (marketplaceWhere search)).length :=
      (stableSort_perm _ _).length_eq
    refine ⟨?_, ?_, ?_⟩
    · have := slice_length_le (stableSort (marketplaceOrderLe sort)
        (table.filter (marketplaceWhere search))) limit offset
      simp only [marketplaceRowsQuery, List.length_map]
      exact this
    · intro hle
      have := slice_length_add (stableSort (marketplaceOrderLe sort)
        (table.filter (marketplaceWhere search))) limit offset (by
          simp only [marketplaceCountQuery] at hle
          omega)
      simp only [marketplaceRowsQuery, marketplaceCountQuery,
        List.length_map] at *
      omega
    · simp [marketplaceRowsQuery, marketplaceCountQuery]

/-- Witness for C3 at a concrete successful call: limit 2, offset 1 over the
three-item local catalog sorted by name returns two items; the bounds and
the hasMore equivalence hold there. -/
theorem pagination_bounds_witness :
    ([lpB, lpC] : List UnifiedPlugin).length ≤ 2 ∧
    1 + ([lpB, lpC] : List UnifiedPlugin).length ≤ 3 ∧
    (false = true ↔ 1 + ([lpB, lpC] : List UnifiedPlugin).length < 3) := by
  have h := pagination_bounds.1 localThree [] 2 1 none "name" "all"
    (some BUILD_WITH_CLAUDE_ID) none true ⟨[lpB, lpC], 3, 2, 1, false⟩ (by rfl)
  exact ⟨h.1, h.2.1 (by decide), h.2.2.1⟩

theorem mem_map_transform {l : List MCPRow} {r : MCPRow}
    (h : r ∈ l.map transformToMCPServerWithParsedJSON) : r ∈ l := by
  rcases List.mem_map.mp h with ⟨x, hx, he⟩
  have : x = r := by simpa [transformToMCPServerWithParsedJSON] using he
  exact this ▸ hx

theorem headSome_mem {α : Type} {l : List α} {a : α} (h : l.head? = some a) : a ∈ l := by
  cases l with
  | nil => simp at h
  | cons x xs =>
    simp only [List.head?_cons, Option.some.injEq] at h
    exact h ▸ List.mem_cons_self ..

theorem mcpQueryRows_active {table : List MCPRow}
    {category sourceRegistry verification search : Option String} {sort : String}
    {limit offset : Nat} {r : MCPRow}
    (h : r ∈ mcpQueryRows table category sourceRegistry verification search sort limit offset) :
    r.active = true := by
  have h1 := List.take_subset _ _ h
  have h2 := List.drop_subset _ _ h1
  have h3 := (stableSort_perm (mcpOrderLe sort search) _).mem_iff.mp h2
  have h4 := List.of_mem_filter h3
  simp only [mcpWhere, Bool.and_eq_true] at h4
  exact h4.1.1.1.1

theorem marketplaceRowsQuery_active {table : List MarketplaceRow}
    {search : Option String} {sort : String} {limit offset : Nat} {m : MarketplaceRow}
    (h : m ∈ marketplaceRowsQuery table search sort limit offset) :
    m.active = true := by
  have h1 := List.take_subset _ _ h
  have h2 := List.drop_subset _ _ h1
  have h3 := (stableSort_perm (marketplaceOrderLe sort) _).mem_iff.mp h2
  have h4 := List.of_mem_filter h3
  simp only [marketplaceWhere, Bool.and_eq_true] at h4
  exact h4.1

theorem pluginRowsQuery_active {table : List PluginRow} {search : Option String}
    {sort type : String} {marketplaceId category : Option String} {p : PluginRow}
    (h : p ∈ pluginRowsQuery table search sort type marketplaceId category) :
    p.active = true := by
  have h1 := List.take_subset _ _ h
  have h2 := (stableSort_perm (pluginOrderLe sort search) _).mem_iff.mp h1
  have h3 := List.of_mem_filter h2
  simp only [pluginWhere, Bool.and_eq_true] at h3
  exact h3.1.1.1.1

/-- C9 counterexample: getMCPServerBySlug and getMarketplaceById carry no
active filter; against tables holding only an inactive row, both return that
inactive record. -/
theorem get_by_slug_returns_inactive :
    (getMCPServerBySlug [inactiveServerRow] ⟨false, 0⟩ true 0 "official-mcp-dead").2 =
      some inactiveServerRow ∧
    inactiveServerRow.active = false ∧
    (getMarketplaceById [inactiveMarketplaceRow] ⟨false, 0⟩ true 0 "m-dead").2 =
      some (transformRow inactiveMarketplaceRow) ∧
    inactiveMarketplaceRow.active = false := by
  refine ⟨?_, ?_, ?_, ?_⟩ <;> decide

/-- C9 amended: every listing query filters to active = true — every row of
an MCP listing page, of the marketplace page query and of the plugin
database query is active — but the single-record reads getMCPServerBySlug
and getMarketplaceById filter only on their key: any returned record merely
belongs to the table and matches the key, with no active guarantee, and the
counterexample shows an inactive record being returned. -/
theorem active_filter_reads :
    (∀ (table : List MCPRow) (brk : Breaker) (dbOk : Bool) (now limit offset : Nat)
       (search : Option String) (sort : String)
       (category sourceRegistry verification : Option String) (r : MCPRow),
       r ∈ (getMCPServersPaginated table brk dbOk now limit offset search sort
           category sourceRegistry verification).2.servers →
       r.active = true) ∧
    (∀ (table : List MarketplaceRow) (search : Option String) (sort : String)
       (limit offset : Nat) (m : MarketplaceRow),
       m ∈ marketplaceRowsQuery table search sort limit offset → m.active = true) ∧
    (∀ (table : List PluginRow) (search : Option String) (sort type : String)
       (marketplaceId category : Option String) (p : PluginRow),
       p ∈ pluginRowsQuery table search sort type marketplaceId category →
       p.active = true) ∧
    (∀ (table : List MCPRow) (brk : Breaker) (dbOk : Bool) (now : Nat)
       (slug : String) (r : MCPRow),
       (getMCPServerBySlug table brk dbOk now slug).2 = some r →
       r ∈ table ∧ r.slug = slug) := by
  refine ⟨?_, ?_, ?_, ?_⟩
  · intro table brk dbOk now limit offset search sort category sourceRegistry
      verification r hr
    rcases brk with ⟨o, t⟩
    dsimp only [getMCPServersPaginated, safeDbQuery, attemptQuery] at hr
    rcases o with _ | _
    · cases dbOk with
      | false => simp at hr
      | true =>
        simp only [Bool.false_eq_true, if_false, if_true] at hr
        exact mcpQueryRows_active (mem_map_transform hr)
    · by_cases hc : CIRCUIT_TTL_MS < now - t
      · cases dbOk with
        | false => simp [hc] at hr
        | true =>
          simp only [hc, if_true] at hr
          exact mcpQueryRows_active (mem_map_transform hr)
      · simp [hc] at hr
  · intro table search sort limit offset m hm
    exact marketplaceRowsQuery_active hm
  · intro table search sort type marketplaceId category p hp
    exact pluginRowsQuery_active hp
  · intro table brk dbOk now slug r hr
    rcases brk with ⟨o, t⟩
    simp only [getMCPServerBySlug, safeDbQuery, attemptQuery] at hr
    have extract : ∀ {l : List MCPRow},
        (l.head?.map transformToMCPServerWithParsedJSON = some r) →
        r ∈ l := by
      intro l hl
      rcases Option.map_eq_some'.mp hl with ⟨x, hx, hxr⟩
      have := headSome_mem hx
      simpa [transformToMCPServerWithParsedJSON, ← hxr] using this
    have main : ∀ (hmem : r ∈ (table.filter (fun row => row.slug = slug)).take 1),
        r ∈ table ∧ r.slug = slug := by
      intro hmem
      have h1 := List.take_subset _ _ hmem
      refine ⟨List.mem_of_mem_filter h1, ?_⟩
      have := List.of_mem_filter h1
      simpa using this
    rcases o with _ | _
    · simp only [Bool.false_eq_true, if_false] at hr
      cases dbOk with
      | false => simp at hr
      | true => exact main (extract hr)
    · by_cases hc : CIRCUIT_TTL_MS < now - t
      · simp only [hc, if_true] at hr
        cases dbOk with
        | false => simp at hr
        | true => exact main (extract hr)
      · simp [hc] at hr

/-- Witness for C9 at concrete inputs: an active row appearing on a listing
page is active, and a by-slug read returning a row shows only table
membership and key equality. -/
theorem active_filter_reads_witness :
    activeServerRow.active = true ∧
    (inactiveServerRow ∈ [inactiveServerRow] ∧
      inactiveServerRow.slug = "official-mcp-dead") := by
  constructor
  · exact active_filter_reads.1 [activeServerRow] ⟨false, 0⟩ true 0 50 0 none
      "downloads" none none none activeServerRow (by decide)
  · exact active_filter_reads.2.2.2 [inactiveServerRow] ⟨false, 0⟩ true 0
      "official-mcp-dead" inactiveServerRow (by decide)

/-- C8: for a record whose GitHub star lookup succeeds, whatever the Docker
branch did (not applicable, failed, or succeeded), the pass writes the new
star count and inserts exactly one stats-snapshot row for that record — the
GitHub branch skips its insert precisely when the Docker branch already
inserted one. -/
theorem stats_sync_single_snapshot :
    ∀ (s : SyncServerRecord) (dockerRes : Option Nat) (stars now : Nat),
      s.githubUrl.isSome = true →
      (syncOneServer s dockerRes (some stars) now).2.1.length = 1 ∧
      (∀ sn ∈ (syncOneServer s dockerRes (some stars) now).2.1,
        sn.mcpServerId = s.id) ∧
      ServerStatsUpdate.mk s.id none (some stars) now now ∈
        (syncOneServer s dockerRes (some stars) now).1 := by
  intro s dockerRes stars now hg
  by_cases hd : s.dockerUrl.isSome ∧ s.sourceRegistry = "docker"
  · cases dockerRes with
    | none => simp [syncOneServer, hd, hg]
    | some pulls => simp [syncOneServer, hd, hg]
  · cases dockerRes with
    | none => simp [syncOneServer, hd, hg]
    | some pulls => simp [syncOneServer, hd, hg]

/-- Witness for C8 at concrete inputs: a docker-sourced record with both
URLs; with the Docker lookup failing, and again with it succeeding, the
pass inserts exactly one snapshot, and the star update is written in the
failing-Docker pass. -/
theorem stats_sync_single_snapshot_witness :
    (syncOneServer syncDockerGithub none (some 7) 3).2.1.length = 1 ∧
    (syncOneServer syncDockerGithub (some 11) (some 7) 3).2.1.length = 1 ∧
    ServerStatsUpdate.mk "id1" none (some 7) 3 3 ∈
      (syncOneServer syncDockerGithub none (some 7) 3).1 := by
  refine ⟨?_, ?_, ?_⟩
  · exact (stats_sync_single_snapshot syncDockerGithub none 7 3 (by decide)).1
  · exact (stats_sync_single_snapshot syncDockerGithub (some 11) 7 3 (by decide)).1
  · exact (stats_sync_single_snapshot syncDockerGithub none 7 3 (by decide)).2.2

theorem map_id_of_eq {α : Type} {f : α → α} :
    ∀ {l : List α}, (∀ a ∈ l, f a = a) → l.map f = l := by
  intro l
  induction l with
  | nil => intro _; rfl
  | cons a t ih =>
    intro h
    simp only [List.map_cons, h a (List.mem_cons_self ..),
      ih (fun b hb => h b (List.mem_cons_of_mem _ hb))]

theorem descrOfRow_applyUpdate (old : MCPRow) (d : MCPDescr) (now : Nat) :
    descrOfRow (applyUpdate old d now) = d := rfl

theorem slug_applyUpdate (old : MCPRow) (d : MCPDescr) (now : Nat) :
    (applyUpdate old d now).slug = old.slug := rfl

/-- C10: two upstream records whose names agree under the slug
normalization (lowercase, non-[a-z0-9-] characters to dashes, dash runs
collapsed) — such as foo.bar and foo_bar — get the same generated slug, so
upserting both against a table without that slug yields a single new row
whose descriptive columns are those of the later record: the indexed row
count is one although two distinct records were processed. -/
theorem slug_collision_maps_to_single_row :
    ∀ (r1 r2 : RawMCPServer) (src : String) (T : List MCPRow) (now : Nat),
      normalizeName r1.name = normalizeName r2.name →
      generateSlug r1.name src ∉ T.map (fun row => row.slug) →
      generateSlug r1.name src = generateSlug r2.name src ∧
      (upsertMCPServer (upsertMCPServer T r1 src now) r2 src now).length = T.length + 1 ∧
      ((upsertMCPServer (upsertMCPServer T r1 src now) r2 src now).getLast?).map descrOfRow =
        some (rawDescr r2) := by
  intro r1 r2 src T now hnorm hslug
  have hgs : generateSlug r1.name src = generateSlug r2.name src := by
    simp [generateSlug, hnorm]
  have hnotrow : ∀ row ∈ T, ¬ row.slug = generateSlug r1.name src := by
    intro row hrow he
    exact hslug (List.mem_map.mpr ⟨row, hrow, he⟩)
  have hany : (T.any (fun row => row.slug = generateSlug r1.name src)) = false := by
    rw [Bool.eq_false_iff]
    intro h
    rcases List.any_eq_true.mp h with ⟨row, hrow, hp⟩
    exact hnotrow row hrow (by simpa using hp)
  have h1 : upsertMCPServer T r1 src now = T ++ [insertRow r1 src now] := by
    simp only [upsertMCPServer, hany, Bool.false_eq_true, if_false]
  have hinslug : (insertRow r1 src now).slug = generateSlug r1.name src := rfl
  have hany2 : ((T ++ [insertRow r1 src now]).any
      (fun row => row.slug = generateSlug r2.name src)) = true := by
    rw [List.any_eq_true]
    exact ⟨insertRow r1 src now, by simp, by simp [hinslug, hgs]⟩
  have h2 : upsertMCPServer (T ++ [insertRow r1 src now]) r2 src now =
      (T ++ [insertRow r1 src now]).map
        (fun row => if row.slug = generateSlug r2.name src then
          applyUpdate row (rawDescr r2) now else row) := by
    simp only [upsertMCPServer, hany2, if_true]
  have hmapT : T.map (fun row => if row.slug = generateSlug r2.name src then
      applyUpdate row (rawDescr r2) now else row) = T := by
    apply map_id_of_eq
    intro row hrow
    rw [if_neg]
    exact fun he => hnotrow row hrow (he.trans hgs.symm)
  have hf : ((T ++ [insertRow r1 src now]).map
      (fun row => if row.slug = generateSlug r2.name src then
        applyUpdate row (rawDescr r2) now else row)) =
      T ++ [applyUpdate (insertRow r1 src now) (rawDescr r2) now] := by
    rw [List.map_append, hmapT]
    simp only [List.map_cons, List.map_nil]
    rw [if_pos (by rw [hinslug, hgs])]
  refine ⟨hgs, ?_, ?_⟩
  · rw [h1, h2, hf]
    simp
  · rw [h1, h2, hf]
    rw [List.getLast?_concat]
    simp [descrOfRow_applyUpdate]

/-- Witness for C10: the distinct upstream names foo.bar and foo_bar both
normalize to foo-bar; upserting both records into an empty table yields one
row whose descriptive columns come from the second record. -/
theorem slug_collision_maps_to_single_row_witness :
    generateSlug "foo.bar" "official-mcp" = generateSlug "foo_bar" "official-mcp" ∧
    (upsertMCPServer (upsertMCPServer [] upsR1 "official-mcp" 7) upsR2 "official-mcp" 7).length =
      0 + 1 ∧
    ((upsertMCPServer (upsertMCPServer [] upsR1 "official-mcp" 7) upsR2
        "official-mcp" 7).getLast?).map descrOfRow = some (rawDescr upsR2) ∧
    upsR1.name ≠ upsR2.name := by
  have h := slug_collision_maps_to_single_row upsR1 upsR2 "official-mcp" [] 7
    (by decide) (by decide)
  exact ⟨h.1, h.2.1, h.2.2, by decide⟩

theorem applyUpdate_absorb (row : MCPRow) (d d2 : MCPDescr) (n n2 : Nat) :
    applyUpdate (applyUpdate row d n) d2 n2 = applyUpdate row d2 n2 := rfl

theorem stripTS_applyUpdate_self (row : MCPRow) (d : MCPDescr) (n : Nat)
    (h : descrOfRow row = d) : stripTS (applyUpdate row d n) = stripTS row := by
  subst h; rfl

theorem descrOfRow_insertRow (r : RawMCPServer) (src : String) (n : Nat) :
    descrOfRow (insertRow r src n) = rawDescr r := rfl

theorem slug_insertRow (r : RawMCPServer) (src : String) (n : Nat) :
    (insertRow r src n).slug = generateSlug r.name src := rfl

theorem slug_applyRecsRow (recs : List (RawMCPServer × String)) (n : Nat)
    (row : MCPRow) : (applyRecsRow recs n row).slug = row.slug := by
  unfold applyRecsRow
  split <;> rfl

/-- Membership in one upsert result: either an untouched row of the table
whose slug is not the target, or a row carrying the target slug whose
descriptive columns are those of the record. -/
theorem mem_upsert_cases {T : List MCPRow} {r : RawMCPServer} {src : String}
    {now : Nat} {row : MCPRow} (h : row ∈ upsertMCPServer T r src now) :
    (row ∈ T ∧ row.slug ≠ generateSlug r.name src) ∨
    (descrOfRow row = rawDescr r ∧ row.slug = generateSlug r.name src) := by
  simp only [upsertMCPServer] at h
  split at h
  · rename_i hany
    rcases List.mem_map.mp h with ⟨x, hx, hxr⟩
    by_cases hs : x.slug = generateSlug r.name src
    · right
      rw [if_pos hs] at hxr
      exact ⟨hxr ▸ descrOfRow_applyUpdate x (rawDescr r) now,
        hxr ▸ (slug_applyUpdate x (rawDescr r) now).trans hs⟩
    · left
      rw [if_neg hs] at hxr
      exact ⟨hxr ▸ hx, hxr ▸ hs⟩
  · rename_i hany
    rcases List.mem_append.mp h with hx | hx
    · left
      refine ⟨hx, fun he => ?_⟩
      rw [Bool.not_eq_true] at hany
      have : T.any (fun row0 => row0.slug = generateSlug r.name src) = true :=
        List.any_eq_true.mpr ⟨row, hx, by simpa using he⟩
      rw [hany] at this
      exact Bool.false_ne_true this
    · right
      rcases List.mem_singleton.mp hx with rfl
      exact ⟨descrOfRow_insertRow r src now, slug_insertRow r src now⟩

theorem slug_mem_upsert {T : List MCPRow} {s : String} (r : RawMCPServer)
    (src : String) (now : Nat) (h : s ∈ T.map (fun row => row.slug)) :
    s ∈ (upsertMCPServer T r src now).map (fun row => row.slug) := by
  simp only [upsertMCPServer]
  split
  · rw [List.map_map]
    rcases List.mem_map.mp h with ⟨x, hx, hxs⟩
    refine List.mem_map.mpr ⟨x, hx, ?_⟩
    simp only [Function.comp_apply]
    split
    · exact (slug_applyUpdate ..).trans hxs
    · exact hxs
  · rw [List.map_append]
    exact List.mem_append_left _ h

theorem slug_self_upsert (T : List MCPRow) (r : RawMCPServer) (src : String)
    (now : Nat) :
    generateSlug r.name src ∈ (upsertMCPServer T r src now).map (fun row => row.slug) := by
  simp only [upsertMCPServer]
  split
  · rename_i hany
    rcases List.any_eq_true.mp hany with ⟨x, hx, hs⟩
    rw [List.map_map]
    refine List.mem_map.mpr ⟨x, hx, ?_⟩
    simp only [Function.comp_apply]
    rw [if_pos (by simpa using hs)]
    exact (slug_applyUpdate ..).trans (by simpa using hs)
  · rw [List.map_append]
    exact List.mem_append_right _ (by simp [slug_insertRow])

theorem slug_mem_indexUpsertAll (now : Nat) {s : String} :
    ∀ (recs : List (RawMCPServer × String)) (T : List MCPRow),
      s ∈ T.map (fun row => row.slug) →
      s ∈ (indexUpsertAll recs now T).map (fun row => row.slug) := by
  intro recs
  induction recs with
  | nil => intro T h; exact h
  | cons p rest ih =>
    intro T h
    exact ih _ (slug_mem_upsert p.1 p.2 now h)

theorem slug_present_indexUpsertAll (now : Nat) :
    ∀ (recs : List (RawMCPServer × String)) (T : List MCPRow)
      (p : RawMCPServer × String), p ∈ recs →
      generateSlug p.1.name p.2 ∈ (indexUpsertAll recs now T).map (fun row => row.slug) := by
  intro recs
  induction recs with
  | nil => intro T p h; simp at h
  | cons q rest ih =>
    intro T p hp
    rcases List.mem_cons.mp hp with rfl | hp'
    · exact slug_mem_indexUpsertAll now rest _ (slug_self_upsert T p.1 p.2 now)
    · exact ih _ p hp'

theorem upsert_eq_map_of_present {T : List MCPRow} {r : RawMCPServer}
    {src : String} (now : Nat)
    (h : generateSlug r.name src ∈ T.map (fun row => row.slug)) :
    upsertMCPServer T r src now =
      T.map (fun row => if row.slug = generateSlug r.name src then
        applyUpdate row (rawDescr r) now else row) := by
  have hany : (T.any (fun row => row.slug = generateSlug r.name src)) = true := by
    rcases List.mem_map.mp h with ⟨x, hx, hxs⟩
    exact List.any_eq_true.mpr ⟨x, hx, by simpa using hxs⟩
  simp only [upsertMCPServer, hany, if_true]

theorem applyRecsRow_upd (r : RawMCPServer) (src : String)
    (rest : List (RawMCPServer × String)) (n2 : Nat) (row : MCPRow) :
    applyRecsRow rest n2 (if row.slug = generateSlug r.name src then
        applyUpdate row (rawDescr r) n2 else row) =
      applyRecsRow ((r, src) :: rest) n2 row := by
  by_cases hs : row.slug = generateSlug r.name src
  · rw [if_pos hs]
    cases hld : lastDescr rest row.slug with
    | some d =>
      simp [applyRecsRow, lastDescr, slug_applyUpdate, hld, applyUpdate_absorb]
    | none =>
      simp [applyRecsRow, lastDescr, slug_applyUpdate, hld, hs.symm]
  · rw [if_neg hs]
    cases hld : lastDescr rest row.slug with
    | some d => simp [applyRecsRow, lastDescr, hld]
    | none => simp [applyRecsRow, lastDescr, hld, Ne.symm hs]

theorem indexUpsertAll_eq_map (n2 : Nat) :
    ∀ (recs : List (RawMCPServer × String)) (T : List MCPRow),
      (∀ p ∈ recs, generateSlug p.1.name p.2 ∈ T.map (fun row => row.slug)) →
      indexUpsertAll recs n2 T = T.map (applyRecsRow recs n2) := by
  intro recs
  induction recs with
  | nil =>
    intro T _
    show T = T.map _
    exact (map_id_of_eq fun a _ => rfl).symm
  | cons q rest ih =>
    intro T hp
    rcases q with ⟨r, src⟩
    have hpres : generateSlug r.name src ∈ T.map (fun row => row.slug) :=
      hp _ (List.mem_cons_self ..)
    show indexUpsertAll rest n2 (upsertMCPServer T r src n2) = _
    rw [upsert_eq_map_of_present n2 hpres]
    have hslugs : ((T.map (fun row => if row.slug = generateSlug r.name src then
        applyUpdate row (rawDescr r) n2 else row)).map (fun row => row.slug)) =
        T.map (fun row => row.slug) := by
      rw [List.map_map]
      apply List.map_congr_left
      intro a _
      simp only [Function.comp_apply]
      split
      · exact slug_applyUpdate ..
      · rfl
    rw [ih _ (by
      intro p hp'
      rw [hslugs]
      exact hp p (List.mem_cons_of_mem _ hp'))]
    rw [List.map_map]
    apply List.map_congr_left
    intro row _
    simp only [Function.comp_apply]
    exact applyRecsRow_upd r src rest n2 row

theorem mem_indexUpsertAll_untouched (n2 : Nat) :
    ∀ (recs : List (RawMCPServer × String)) (T : List MCPRow) (row : MCPRow),
      row ∈ indexUpsertAll recs n2 T → lastDescr recs row.slug = none → row ∈ T := by
  intro recs
  induction recs with
  | nil => intro T row h _; exact h
  | cons q rest ih =>
    intro T row h hld
    rcases q with ⟨r, src⟩
    simp only [lastDescr] at hld
    have hld2 : lastDescr rest row.slug = none ∧ generateSlug r.name src ≠ row.slug := by
      cases hrest : lastDescr rest row.slug with
      | some d => rw [hrest] at hld; simp at hld
      | none =>
        rw [hrest] at hld
        refine ⟨rfl, fun he => ?_⟩
        rw [if_pos he] at hld
        simp at hld
    have hmem := ih _ row h hld2.1
    rcases mem_upsert_cases hmem with ⟨hT, _⟩ | ⟨_, hslug⟩
    · exact hT
    · exact absurd hslug.symm hld2.2

theorem descr_indexUpsertAll (n : Nat) :
    ∀ (recs : List (RawMCPServer × String)) (T : List MCPRow) (row : MCPRow)
      (d : MCPDescr),
      row ∈ indexUpsertAll recs n T → lastDescr recs row.slug = some d →
      descrOfRow row = d := by
  intro recs
  induction recs with
  | nil => intro T row d _ hd; simp [lastDescr] at hd
  | cons q rest ih =>
    intro T row d h hd
    rcases q with ⟨r, src⟩
    simp only [lastDescr] at hd
    cases hrest : lastDescr rest row.slug with
    | some d2 =>
      rw [hrest] at hd
      simp only [Option.some.injEq] at hd
      exact hd ▸ ih _ row d2 h hrest
    | none =>
      rw [hrest] at hd
      by_cases he : generateSlug r.name src = row.slug
      · rw [if_pos he] at hd
        simp only [Option.some.injEq] at hd
        have hmem := mem_indexUpsertAll_untouched n rest _ row h hrest
        rcases mem_upsert_cases hmem with ⟨_, hne⟩ | ⟨hdescr, _⟩
        · exact absurd he.symm hne
        · exact hd ▸ hdescr
      · rw [if_neg he] at hd
        simp at hd

/-- C7: running the upsert loop a second time over the same fetched records
(whatever timestamps the two runs carry) inserts no new row for any natural
key: the slug sequence, and hence the row count, of the table is unchanged,
and each row is unchanged outside its updatedAt and lastIndexedAt
timestamps — every descriptive column is overwritten with the value it
already holds. -/
theorem indexer_upsert_idempotent :
    ∀ (recs : List (RawMCPServer × String)) (T0 : List MCPRow) (n1 n2 : Nat),
      (indexUpsertAll recs n2 (indexUpsertAll recs n1 T0)).map (fun row => row.slug) =
        (indexUpsertAll recs n1 T0).map (fun row => row.slug) ∧
      (indexUpsertAll recs n2 (indexUpsertAll recs n1 T0)).length =
        (indexUpsertAll recs n1 T0).length ∧
      (indexUpsertAll recs n2 (indexUpsertAll recs n1 T0)).map stripTS =
        (indexUpsertAll recs n1 T0).map stripTS := by
  intro recs T0 n1 n2
  have hpres : ∀ p ∈ recs, generateSlug p.1.name p.2 ∈
      (indexUpsertAll recs n1 T0).map (fun row => row.slug) :=
    fun p hp => slug_present_indexUpsertAll n1 recs T0 p hp
  have hchar := indexUpsertAll_eq_map n2 recs (indexUpsertAll recs n1 T0) hpres
  refine ⟨?_, ?_, ?_⟩
  · rw [hchar, List.map_map]
    apply List.map_congr_left
    intro row _
    simp only [Function.comp_apply]
    exact slug_applyRecsRow recs n2 row
  · rw [hchar, List.length_map]
  · rw [hchar, List.map_map]
    apply List.map_congr_left
    intro row hrow
    simp only [Function.comp_apply]
    cases hld : lastDescr recs row.slug with
    | none => simp [applyRecsRow, hld]
    | some d =>
      simp only [applyRecsRow, hld]
      exact stripTS_applyUpdate_self row d n2
        (descr_indexUpsertAll n1 recs T0 row d hrow hld)
